import Mathlib

/-!
Verification development for the file upload and retrieval subsystem of the
chat server (api4/file.go and its newer revision).  Byte strings are modelled
as lists of natural numbers; HTTP handlers become pure functions from an
environment of collaborators (config snapshot, permission predicate, the
app-layer upload pipeline, the metadata store) and a request to an
`Except AppError` result.  Multipart bodies are lists of parts; the
tee-buffer-and-rewind machinery of the two-mode ingestor is represented by
re-processing the full part list from the start, which is exactly what
re-parsing `buffered ++ remaining` does.
-/

/-- Byte strings (Go `[]byte` / form values), one natural number per byte. -/
abbrev Bytes := List Nat

/-- Cap on a non-file multipart form value, from `const maxValueBytes = 10 * 1024`. -/
def maxValueBytes : Nat := 10 * 1024

/-- Sentinel team id used in upload paths, from `FILE_TEAM_ID = "noteam"`. -/
def FILE_TEAM_ID : String := "noteam"

/-- Model of `model.AppError`: the i18n id, the detail string, and the HTTP status. -/
structure AppError where
  id : String
  details : String
  statusCode : Nat
deriving DecidableEq

/-- Error produced by `c.SetInvalidParam` / `c.SetInvalidUrlParam`. -/
def invalidUrlParam (name : String) : AppError :=
  ⟨"api.context.invalid_url_param.app_error", name, 400⟩

/-- Error `api.file.upload_file.incorrect_number_of_files.app_error`, status 400. -/
def incorrectNumberOfFilesError : AppError :=
  ⟨"api.file.upload_file.incorrect_number_of_files.app_error", "", 400⟩

/-- Error produced by `c.SetPermissionError(model.PERMISSION_UPLOAD_FILE)`, status 403. -/
def permissionUploadFileError : AppError :=
  ⟨"api.context.permissions.app_error", "upload_file", 403⟩

/-- Error `api.file.attachments.disabled.app_error`, status 501. -/
def attachmentsDisabledError : AppError :=
  ⟨"api.file.attachments.disabled.app_error", "", 501⟩

/-- Error `api.file.get_public_link.disabled.app_error`, status 501. -/
def publicLinkDisabledError : AppError :=
  ⟨"api.file.get_public_link.disabled.app_error", "", 501⟩

/-- Error `api.file.get_file.public_invalid.app_error`, status 400. -/
def publicInvalidError : AppError :=
  ⟨"api.file.get_file.public_invalid.app_error", "", 400⟩

/-- The fields of `model.FileInfo` that the handlers under verification read. -/
structure FileInfo where
  id : String
  name : String
  mimeType : String
  size : Int
  path : String
deriving DecidableEq

/-- Model of `model.FileUploadResponse`: parallel lists of file infos and client ids. -/
structure FileUploadResponse where
  fileInfos : List FileInfo
  clientIds : List Bytes
deriving DecidableEq

/-- Model of `app.UploadFileContext` (the spec's UploadRequest): one file handed
to the app-layer pipeline. -/
structure UploadFileContext where
  teamId : String
  channelId : Bytes
  userId : String
  clientId : Bytes
  name : String
  contentLength : Int
  input : Bytes
deriving DecidableEq

/-- The collaborators the handlers call, and the read-only config snapshot.
`uploadFile` stands for `c.App.UploadFile` (the app-layer pipeline, outside
the files under verification), `isValidId` for the id check of
`c.RequireChannelId`, `hasUploadPerm` for `SessionHasPermissionToChannel`,
`getFileInfo` for `c.App.GetFileInfo`, `fileReader` for `c.App.FileReader`,
and `generatePublicLinkHash` for `app.GeneratePublicLinkHash`. -/
structure Env where
  maxFileSize : Int
  enableFileAttachments : Bool
  enablePublicLink : Bool
  publicLinkSalt : String
  storageDriver : String
  userId : String
  isValidId : Bytes → Bool
  isValidIdStr : String → Bool
  hasUploadPerm : Bytes → Bool
  uploadFile : UploadFileContext → Except AppError FileInfo
  getFileInfo : String → Except AppError FileInfo
  fileReader : String → Except AppError Bytes
  generatePublicLinkHash : String → String → Bytes
  urlPathEscape : String → String

/-- One part of a multipart body: `p.FormName()`, `p.FileName()`, and the raw
content bytes.  A part with `formname = ""` is skipped by every reader; a part
with `filename = ""` is a form value; otherwise it is a file part. -/
structure MPart where
  formname : String
  filename : String
  content : Bytes
deriving DecidableEq

/-- Reading a form value: `io.CopyN(&b, p, maxValueBytes)` copies at most
`maxValueBytes` bytes of the part and then stops without error, so the value
seen by the handler is the first 10 KiB of the part content. -/
def partValue (p : MPart) : Bytes := p.content.take maxValueBytes

/-- An HTTP upload request as the facade sees it: the `Content-Length` header,
the parsed multipart body when the request is multipart (`none` models
`http.ErrNotMultipart`), the raw body otherwise, and the URL query parameters
`channel_id` and `filename`. -/
structure HRequest where
  contentLength : Int
  multipartParts : Option (List MPart)
  body : Bytes
  channelIdParam : Bytes
  filenameParam : String

namespace Api4v2

/-- Mode constant `streamMode = uploadFileMultipartMode(false)`. -/
def streamMode : Bool := false

/-- Mode constant `bufferedMode = uploadFileMultipartMode(true)`. -/
def bufferedMode : Bool := true

/-- The mutable state of one pass of the two-mode multipart loop:
`c.Params.ChannelId`, `expectClientIds`, the collected `clientIds`, `nFiles`,
and the response accumulators `resp.FileInfos` / `resp.ClientIds`. -/
structure MpState where
  channelId : Bytes
  expectClientIds : Bool
  clientIds : List Bytes
  nFiles : Nat
  fileInfos : List FileInfo
  respClientIds : List Bytes
deriving DecidableEq

/-- The local state at the top of `uploadFileMultipart`, with
`c.Params.ChannelId` carried in from the URL parameters. -/
def initState (channelId : Bytes) : MpState :=
  { channelId := channelId, expectClientIds := true, clientIds := [],
    nFiles := 0, fileInfos := [], respClientIds := [] }

/-- End of the part loop: `if expectClientIds && len(clientIds) != nFiles`
fail with 400, else return the accumulated response. -/
def finishLoop (st : MpState) : Except AppError FileUploadResponse :=
  if st.expectClientIds ∧ st.clientIds.length ≠ st.nFiles then
    .error incorrectNumberOfFilesError
  else .ok { fileInfos := st.fileInfos, clientIds := st.respClientIds }

/-- Processing of one file part once past the buffered-mode transition check:
channel id validation and permission, fixing of `expectClientIds` at the first
file, selection of the client id, the `c.App.UploadFile` call, and the
response accumulation. -/
def fileStep (env : Env) (st : MpState) (filename : String) (content : Bytes) :
    Except AppError MpState :=
  if ¬ env.isValidId st.channelId then .error (invalidUrlParam "channel_id")
  else if ¬ env.hasUploadPerm st.channelId then .error permissionUploadFileError
  else
  let st1 := if st.nFiles = 0 ∧ st.clientIds = [] then
    { st with expectClientIds := false } else st
  if st1.expectClientIds ∧ st1.clientIds.length ≤ st1.nFiles then
    .error (invalidUrlParam "client_ids")
  else
  let clientId := if st1.expectClientIds then st1.clientIds.getD st1.nFiles [] else []
  let ctx : UploadFileContext :=
    { teamId := FILE_TEAM_ID, channelId := st1.channelId,
      userId := env.userId, clientId := clientId, name := filename,
      contentLength := -1, input := content }
  match env.uploadFile ctx with
  | .error e => .error e
  | .ok info =>
      .ok { st1 with fileInfos := st1.fileInfos ++ [info],
                     respClientIds := (if st1.expectClientIds then
                       st1.respClientIds ++ [clientId] else st1.respClientIds),
                     nFiles := st1.nFiles + 1 }

/-- The part loop of `uploadFileMultipart` in `streamMode`: a `channel_id`
field overrides the channel id (when non-empty) without rewinding, a
`client_ids` field is collected only while still expected, an unknown form
name is an invalid parameter, and file parts go through `fileStep`. -/
def uploadFileMultipartStream (env : Env) :
    MpState → List MPart → Except AppError FileUploadResponse
  | st, [] => finishLoop st
  | st, p :: rest =>
    if p.formname = "" then uploadFileMultipartStream env st rest
    else if p.filename = "" then
      let v := partValue p
      if p.formname = "channel_id" then
        uploadFileMultipartStream env
          (if v ≠ [] then { st with channelId := v } else st) rest
      else if p.formname = "client_ids" then
        if st.expectClientIds then
          uploadFileMultipartStream env
            { st with clientIds := st.clientIds ++ [v] } rest
        else .error (invalidUrlParam "client_ids")
      else .error (invalidUrlParam "formname")
    else
      match fileStep env st p.filename p.content with
      | .error e => .error e
      | .ok st2 => uploadFileMultipartStream env st2 rest

/-- Values of the form field `name` as `mr.ReadForm` collects them: every part
with that form name and an empty file name, in stream order, read in full
(ReadForm does not apply the 10 KiB `CopyN` cap). -/
def formValues (parts : List MPart) (name : String) : List Bytes :=
  (parts.filter (fun p => p.formname == name && p.filename == "")).map
    (fun p => p.content)

/-- File headers of the parsed form under the key `"files"`:
`form.File["files"]` holds exactly the parts with that form name and a
non-empty file name. -/
def formFiles (parts : List MPart) : List MPart :=
  parts.filter (fun p => p.formname == "files" && p.filename != "")

/-- The `for i, fileHeader := range fileHeaders` loop of
`uploadFileMultipartBuffered`: each file is uploaded with
`clientIds[i]` when client ids were supplied, and a client id is appended to
the response only when it is non-empty. -/
def bufferedLoop (env : Env) (channelId : Bytes) (clientIds : List Bytes) :
    FileUploadResponse → Nat → List MPart → Except AppError FileUploadResponse
  | acc, _, [] => .ok acc
  | acc, i, fh :: rest =>
    let clientId := if clientIds.length > 0 then clientIds.getD i [] else []
    let ctx : UploadFileContext :=
      { teamId := FILE_TEAM_ID, channelId := channelId,
        userId := env.userId, clientId := clientId, name := fh.filename,
        contentLength := -1, input := fh.content }
    match env.uploadFile ctx with
    | .error e => .error e
    | .ok info =>
        bufferedLoop env channelId clientIds
          { fileInfos := acc.fileInfos ++ [info],
            clientIds := (if clientId ≠ [] then acc.clientIds ++ [clientId]
                         else acc.clientIds) }
          (i + 1) rest

/-- `uploadFileMultipartBuffered`: parse the entire form, require and validate
`channel_id`, require either no client ids or one per file, then upload the
parts filed under `"files"` in order.  ReadForm parse failures and its memory
bound are outside the model (the model form always parses). -/
def uploadFileMultipartBuffered (env : Env) (parts : List MPart) :
    Except AppError FileUploadResponse :=
  let chValues := formValues parts "channel_id"
  if chValues.length = 0 then .error (invalidUrlParam "channel_id")
  else
  let channelId := chValues.getD 0 []
  if ¬ env.isValidId channelId then .error (invalidUrlParam "channel_id")
  else if ¬ env.hasUploadPerm channelId then .error permissionUploadFileError
  else
  let clientIds := formValues parts "client_ids"
  let fileHeaders := formFiles parts
  if clientIds.length ≠ 0 ∧ clientIds.length ≠ fileHeaders.length then
    .error incorrectNumberOfFilesError
  else bufferedLoop env channelId clientIds ⟨[], []⟩ 0 fileHeaders

/-- The part loop of `uploadFileMultipart` in `bufferedMode` (the body is
teed into a buffer): a `channel_id` field records the id and rewinds —
replacing the body with `buffered ++ remaining` and restarting the whole
message in `streamMode`; a file part seen while the channel id is still
unknown rewinds likewise and hands the whole message to
`uploadFileMultipartBuffered`; otherwise the step is as in stream mode.
`allParts` is the full message that a rewind re-reads. -/
def uploadFileMultipartBufScan (env : Env) (allParts : List MPart) :
    MpState → List MPart → Except AppError FileUploadResponse
  | st, [] => finishLoop st
  | st, p :: rest =>
    if p.formname = "" then uploadFileMultipartBufScan env allParts st rest
    else if p.filename = "" then
      let v := partValue p
      if p.formname = "channel_id" then
        let st2 := if v ≠ [] then { st with channelId := v } else st
        uploadFileMultipartStream env (initState st2.channelId) allParts
      else if p.formname = "client_ids" then
        if st.expectClientIds then
          uploadFileMultipartBufScan env allParts
            { st with clientIds := st.clientIds ++ [v] } rest
        else .error (invalidUrlParam "client_ids")
      else .error (invalidUrlParam "formname")
    else
      if st.channelId = [] then uploadFileMultipartBuffered env allParts
      else
        match fileStep env st p.filename p.content with
        | .error e => .error e
        | .ok st2 => uploadFileMultipartBufScan env allParts st2 rest

/-- Entry point `uploadFileMultipart(c, r, timestamp, mode)`: run the part
loop in the requested mode, with `c.Params.ChannelId` initialised from the
URL parameters. -/
def uploadFileMultipart (env : Env) (channelId0 : Bytes) (parts : List MPart)
    (mode : Bool) : Except AppError FileUploadResponse :=
  if mode = bufferedMode then
    uploadFileMultipartBufScan env parts (initState channelId0) parts
  else uploadFileMultipartStream env (initState channelId0) parts

/-- The newer `uploadFileStream` facade: reject 501 when attachments are
disabled, then dispatch multipart bodies to the two-mode ingestor in
`bufferedMode`, and otherwise treat the body as a single file with metadata
from the URL parameters. -/
def uploadFileStream (env : Env) (r : HRequest) :
    Except AppError FileUploadResponse :=
  if ¬ env.enableFileAttachments then .error attachmentsDisabledError
  else match r.multipartParts with
  | some parts => uploadFileMultipart env r.channelIdParam parts bufferedMode
  | none =>
    if ¬ env.isValidId r.channelIdParam then .error (invalidUrlParam "channel_id")
    else if r.filenameParam = "" then .error (invalidUrlParam "filename")
    else if ¬ env.hasUploadPerm r.channelIdParam then .error permissionUploadFileError
    else
      let ctx : UploadFileContext :=
        { teamId := FILE_TEAM_ID, channelId := r.channelIdParam,
          userId := env.userId, clientId := [], name := r.filenameParam,
          contentLength := r.contentLength, input := r.body }
      match env.uploadFile ctx with
      | .error e => .error e
      | .ok info => .ok { fileInfos := [info], clientIds := [] }

end Api4v2

namespace Api4

/-- The mutable state of the older single-pass `uploadFileMultipart` loop:
`c.Params.ChannelId`, `haveClientIds`, the queue of pending `clientIds`, and
the response accumulators. -/
structure MpStateOld where
  channelId : Bytes
  haveClientIds : Bool
  clientIds : List Bytes
  fileInfos : List FileInfo
  respClientIds : List Bytes
deriving DecidableEq

/-- The part loop of the older `uploadFileMultipart(c, mr, timestamp)`:
`client_ids` values queue up, each file part pops the head of the queue, and
a missing id while `haveClientIds` is set fails with 400. -/
def uploadFileMultipartLoop (env : Env) :
    MpStateOld → List MPart → Except AppError FileUploadResponse
  | st, [] =>
    if st.haveClientIds ∧ st.clientIds.length ≠ 0 then
      .error incorrectNumberOfFilesError
    else .ok { fileInfos := st.fileInfos, clientIds := st.respClientIds }
  | st, p :: rest =>
    if p.formname = "" then uploadFileMultipartLoop env st rest
    else if p.filename = "" then
      let v := partValue p
      if p.formname = "channel_id" then
        uploadFileMultipartLoop env
          (if v ≠ [] then { st with channelId := v } else st) rest
      else if p.formname = "client_ids" then
        uploadFileMultipartLoop env
          { st with haveClientIds := true, clientIds := st.clientIds ++ [v] } rest
      else .error (invalidUrlParam "formname")
    else
      if ¬ env.isValidId st.channelId then .error (invalidUrlParam "channel_id")
      else if ¬ env.hasUploadPerm st.channelId then .error permissionUploadFileError
      else
      let clientId := if st.clientIds.length > 0 then st.clientIds.getD 0 [] else []
      let st1 := { st with clientIds := (if st.clientIds.length > 0 then
        st.clientIds.tail else st.clientIds) }
      if st1.haveClientIds ∧ clientId = [] then .error incorrectNumberOfFilesError
      else
        let ctx : UploadFileContext :=
          { teamId := FILE_TEAM_ID, channelId := st1.channelId,
            userId := env.userId, clientId := clientId, name := p.filename,
            contentLength := -1, input := p.content }
        match env.uploadFile ctx with
        | .error e => .error e
        | .ok info =>
            uploadFileMultipartLoop env
              { st1 with fileInfos := st1.fileInfos ++ [info],
                         respClientIds := (if st1.haveClientIds then
                           st1.respClientIds ++ [clientId]
                         else st1.respClientIds) } rest

/-- Entry point of the older `uploadFileMultipart`, with `c.Params.ChannelId`
initialised from the URL parameters. -/
def uploadFileMultipart (env : Env) (channelId0 : Bytes) (parts : List MPart) :
    Except AppError FileUploadResponse :=
  uploadFileMultipartLoop env ⟨channelId0, false, [], [], []⟩ parts

/-- The `uploadFileStream` facade of api4/file.go: reject 501 when attachments
are disabled, then dispatch multipart bodies to `uploadFileMultipart`, and
otherwise treat the body as a single file with metadata from the URL
parameters.  No Content-Length check is performed on this path. -/
def uploadFileStream (env : Env) (r : HRequest) :
    Except AppError FileUploadResponse :=
  if ¬ env.enableFileAttachments then .error attachmentsDisabledError
  else match r.multipartParts with
  | some parts => uploadFileMultipart env r.channelIdParam parts
  | none =>
    if ¬ env.isValidId r.channelIdParam then .error (invalidUrlParam "channel_id")
    else if r.filenameParam = "" then .error (invalidUrlParam "filename")
    else if ¬ env.hasUploadPerm r.channelIdParam then .error permissionUploadFileError
    else
      let ctx : UploadFileContext :=
        { teamId := FILE_TEAM_ID, channelId := r.channelIdParam,
          userId := env.userId, clientId := [], name := r.filenameParam,
          contentLength := r.contentLength, input := r.body }
      match env.uploadFile ctx with
      | .error e => .error e
      | .ok info => .ok { fileInfos := [info], clientIds := [] }

end Api4

/-- The list `UNSAFE_CONTENT_TYPES` of api4/file.go. -/
def UNSAFE_CONTENT_TYPES : List String :=
  ["application/javascript",
   "application/ecmascript",
   "text/javascript",
   "text/ecmascript",
   "application/x-javascript",
   "text/html"]

/-- The list `MEDIA_CONTENT_TYPES` of api4/file.go. -/
def MEDIA_CONTENT_TYPES : List String :=
  ["image/jpeg",
   "image/png",
   "image/bmp",
   "image/gif",
   "video/avi",
   "video/mpeg",
   "video/mp4",
   "audio/mpeg",
   "audio/wav"]

/-- Character-list core of `strings.HasPrefix`. -/
def listHasPre : List Char → List Char → Bool
  | [], _ => true
  | _ :: _, [] => false
  | a :: as, b :: bs => a == b && listHasPre as bs

/-- Model of `strings.HasPrefix(s, pre)`, computed structurally on the
character lists so that it evaluates inside the kernel. -/
def strHasPre (pre s : String) : Bool := listHasPre pre.data s.data

/-- The `for _, unsafeContentType := range UNSAFE_CONTENT_TYPES` loop of
`writeFileResponse`: the first list entry that is a prefix of the content type
rewrites it to text/plain and breaks out of the loop. -/
def rewriteLoop : List String → String → String
  | [], contentType => contentType
  | u :: rest, contentType =>
    if strHasPre u contentType then "text/plain" else rewriteLoop rest contentType

/-- Content-Type normalisation in `writeFileResponse`: the empty type becomes
application/octet-stream, otherwise the unsafe-type rewrite loop runs. -/
def responseContentType (contentType : String) : String :=
  if contentType = "" then "application/octet-stream"
  else rewriteLoop UNSAFE_CONTENT_TYPES contentType

/-- The `for _, mediaContentType := range MEDIA_CONTENT_TYPES` loop of
`writeFileResponse`: true as soon as a list entry is a prefix of the content
type. -/
def mediaLoop : List String → String → Bool
  | [], _ => false
  | m :: rest, contentType =>
    if strHasPre m contentType then true else mediaLoop rest contentType

/-- The `toDownload` decision of `writeFileResponse`: forced download wins,
otherwise download exactly when the (already rewritten) content type is not a
media type. -/
def responseToDownload (contentType : String) (forceDownload : Bool) : Bool :=
  if forceDownload then true else ! mediaLoop MEDIA_CONTENT_TYPES contentType

/-- An apostrophe, kept out of string literals. -/
def apos : String := (Char.ofNat 39).toString

/-- The Content-Disposition header value built by `writeFileResponse` from the
already percent-escaped filename. -/
def dispositionValue (toDownload : Bool) (escapedName : String) : String :=
  (if toDownload then "attachment" else "inline") ++
    ";filename=\"" ++ escapedName ++ "\"; filename*=UTF-8" ++ apos ++ apos ++
    escapedName

/-- The headers `writeFileResponse` sets, in source order.  `esc` is
`url.PathEscape`.  Every key is set exactly once, so the `w.Header().Set`
calls are an append-only list here. -/
def writeFileResponseHeaders (esc : String → String) (filename : String)
    (contentType : String) (contentSize : Int) (forceDownload : Bool) :
    List (String × String) :=
  let ct := responseContentType contentType
  let toDownload := responseToDownload ct forceDownload
  let fn := esc filename
  [("Cache-Control", "max-age=2592000, private"),
   ("X-Content-Type-Options", "nosniff")] ++
  (if contentSize > 0 then [("Content-Length", toString contentSize)] else []) ++
  [("Content-Type", ct),
   ("Content-Disposition", dispositionValue toDownload fn),
   ("X-Frame-Options", "DENY"),
   ("Content-Security-Policy", "Frame-ancestors " ++ apos ++ "none" ++ apos)]

/-- The byte-equality primitive `subtle.ConstantTimeByteEq(x, y)`:
`int((uint32(x^y) - 1) >> 31)`, with the uint32 wraparound written as an
explicit mod. -/
def constantTimeByteEq (x y : Nat) : Nat :=
  (((x ^^^ y) + (2 ^ 32 - 1)) % 2 ^ 32) >>> 31

/-- Cost-instrumented `subtle.ConstantTimeCompare(x, y)`: the result together
with the number of loop iterations performed.  Mismatched lengths return
immediately; otherwise the loop ors together the xor of every byte pair and
the result is the byte-equality of the accumulator with zero. -/
def constantTimeCompareC (x y : Bytes) : Nat × Nat :=
  if x.length ≠ y.length then (0, 0)
  else
    let v := (List.zipWith (fun a b => a ^^^ b) x y).foldl (fun acc w => acc ||| w) 0
    (constantTimeByteEq v 0, x.length)

/-- `subtle.ConstantTimeCompare(x, y)`: 1 when the byte strings are equal,
0 otherwise. -/
def constantTimeCompare (x y : Bytes) : Nat :=
  (constantTimeCompareC x y).1

/-- Outcome of a file-serving handler: a plain JSON error, an error with a
rendered web-app error page (`utils.RenderWebAppError`), or a body streamed
with the headers of `writeFileResponse`. -/
inductive FileResult where
  | err (e : AppError)
  | page (e : AppError)
  | body (headers : List (String × String)) (content : Bytes)
deriving DecidableEq

/-- `getPublicFile`: file id validation, the EnablePublicLink gate, the
FileInfo lookup, the empty-hash check, the constant-time hash check against
`GeneratePublicLinkHash(info.Id, salt)`, and finally the blob read and the
response.  `h` is the percent-decoded value of the `h` query parameter; the
comparison runs on its bytes against the bytes of the recomputed hash string.
A failing blob read surfaces as the lookup error with status forced to 404. -/
def getPublicFile (env : Env) (fileId : String) (h : Bytes) : FileResult :=
  if ¬ env.isValidIdStr fileId then .err (invalidUrlParam "file_id")
  else if ¬ env.enablePublicLink then .err publicLinkDisabledError
  else match env.getFileInfo fileId with
  | .error e => .err e
  | .ok info =>
    if h.length = 0 then .page publicInvalidError
    else if constantTimeCompare h
        (env.generatePublicLinkHash info.id env.publicLinkSalt) ≠ 1 then
      .page publicInvalidError
    else match env.fileReader info.path with
      | .error e => .err { e with statusCode := 404 }
      | .ok data =>
          .body (writeFileResponseHeaders env.urlPathEscape info.name
            info.mimeType info.size false) data

deriving instance DecidableEq for Except

/-- A concrete app-layer pipeline for witness runs: every upload succeeds and
the returned FileInfo records the uploaded name. -/
def infoOfCtx (ctx : UploadFileContext) : FileInfo :=
  { id := "", name := ctx.name, mimeType := "", size := 0, path := "" }

/-- The lookup error a concrete witness store returns for every file id. -/
def fileInfoGetError : AppError :=
  ⟨"api.file.get_file_info.get.app_error", "", 404⟩

/-- A concrete environment for witness runs: attachments enabled, max file
size 1000, every id valid, every permission granted, uploads always succeed,
file-info lookups always fail with a 404 error. -/
def env0 : Env :=
  { maxFileSize := 1000, enableFileAttachments := true,
    enablePublicLink := true, publicLinkSalt := "salt",
    storageDriver := "local", userId := "u",
    isValidId := fun _ => true, isValidIdStr := fun _ => true,
    hasUploadPerm := fun _ => true,
    uploadFile := fun ctx => .ok (infoOfCtx ctx),
    getFileInfo := fun _ => .error fileInfoGetError,
    fileReader := fun _ => .ok [],
    generatePublicLinkHash := fun _ _ => [1, 2],
    urlPathEscape := fun s => s }

/-- Multipart body: two file parts, then client_ids values "" and [99], then
channel_id — the buffered fallback shape with an empty client id. -/
def partsEmptyCid : List MPart :=
  [⟨"files", "a.txt", [10]⟩, ⟨"files", "b.txt", [11]⟩,
   ⟨"client_ids", "", []⟩, ⟨"client_ids", "", [99]⟩,
   ⟨"channel_id", "", [3]⟩]

/-- C1: counterexample.  A multipart request on the buffered fallback path
with client ids "" and [99] for two files completes successfully, yet the
returned ClientIds has length 1 while FileInfos has length 2 — neither empty
nor of equal length, and the remaining client id [99] was supplied for the
second file, not the first. -/
theorem C1_clientIds_invariant_counterexample :
    Api4v2.uploadFileMultipart env0 [] partsEmptyCid Api4v2.bufferedMode =
      .ok { fileInfos := [⟨"", "a.txt", "", 0, ""⟩, ⟨"", "b.txt", "", 0, ""⟩],
            clientIds := [[99]] } ∧
    ([[99]] : List Bytes).length ≠ 0 ∧
    ([[99]] : List Bytes).length ≠
      ([⟨"", "a.txt", "", 0, ""⟩, ⟨"", "b.txt", "", 0, ""⟩] : List FileInfo).length :=
  ⟨rfl, by decide, by decide⟩

/-- Multipart body: channel_id first, one file part, then a client_ids value —
no client id was seen before the first file part. -/
def partsLateCid : List MPart :=
  [⟨"channel_id", "", [3]⟩, ⟨"files", "a.txt", [10]⟩, ⟨"client_ids", "", [7]⟩]

/-- C2: counterexample.  With no client_ids before the first file part, a
client_ids field arriving after the first file part is not ignored: the
request fails with the invalid-parameter error (status 400) instead of
succeeding. -/
theorem C2_late_clientIds_counterexample :
    Api4v2.uploadFileMultipart env0 [] partsLateCid Api4v2.bufferedMode =
      .error (invalidUrlParam "client_ids") ∧
    (invalidUrlParam "client_ids").statusCode = 400 :=
  ⟨rfl, by decide⟩

/-- Multipart body with channel_id before the file: channel_id, file,
client_ids. -/
def partsChFirst : List MPart :=
  [⟨"channel_id", "", [3]⟩, ⟨"files", "c.txt", [10]⟩, ⟨"client_ids", "", [7]⟩]

/-- The same parts with channel_id moved after the file part: file,
client_ids, channel_id. -/
def partsChLast : List MPart :=
  [⟨"files", "c.txt", [10]⟩, ⟨"client_ids", "", [7]⟩, ⟨"channel_id", "", [3]⟩]

/-- C3: counterexample.  The same set of parts gives different results in the
two orders: with channel_id first (streaming path) the request fails with the
invalid-parameter error, while with channel_id last (buffered fallback path)
it succeeds with ClientIds = [[7]]. -/
theorem C3_order_equivalence_counterexample :
    Api4v2.uploadFileMultipart env0 [] partsChFirst Api4v2.bufferedMode =
      .error (invalidUrlParam "client_ids") ∧
    Api4v2.uploadFileMultipart env0 [] partsChLast Api4v2.bufferedMode =
      .ok { fileInfos := [⟨"", "c.txt", "", 0, ""⟩], clientIds := [[7]] } ∧
    Api4v2.uploadFileMultipart env0 [] partsChFirst Api4v2.bufferedMode ≠
      Api4v2.uploadFileMultipart env0 [] partsChLast Api4v2.bufferedMode :=
  ⟨rfl, rfl, by decide⟩

/-- An upload request whose Content-Length (1001) exceeds the configured
MaxFileSize (1000), carrying a well-formed multipart body. -/
def oversizeRequest : HRequest :=
  { contentLength := 1001,
    multipartParts := some [⟨"channel_id", "", [3]⟩, ⟨"files", "a.txt", [10]⟩],
    body := [], channelIdParam := [], filenameParam := "" }

/-- C4: the code at the failing input.  Both revisions of the registered
`uploadFileStream` facade accept a request whose Content-Length exceeds
MaxFileSize: the multipart body is read and processed to a 201 response, and
no PayloadTooLarge rejection happens before reading the body. -/
theorem C4_no_content_length_check :
    env0.maxFileSize < oversizeRequest.contentLength ∧
    Api4.uploadFileStream env0 oversizeRequest =
      .ok { fileInfos := [⟨"", "a.txt", "", 0, ""⟩], clientIds := [] } ∧
    Api4v2.uploadFileStream env0 oversizeRequest =
      .ok { fileInfos := [⟨"", "a.txt", "", 0, ""⟩], clientIds := [] } :=
  ⟨by decide, rfl, rfl⟩

/-- The witness environment with the storage driver unset. -/
def envNoDriver : Env := { env0 with storageDriver := "" }

/-- A simple (non-multipart) upload request with valid metadata. -/
def simpleRequest : HRequest :=
  { contentLength := 2, multipartParts := none, body := [1, 2],
    channelIdParam := [3], filenameParam := "f.txt" }

/-- C6: counterexample.  With attachments enabled and StorageDriver empty,
both revisions of the facade accept the upload instead of rejecting with
NotImplemented: the StorageDriver setting is never consulted. -/
theorem C6_storage_driver_counterexample :
    envNoDriver.storageDriver = "" ∧
    envNoDriver.enableFileAttachments = true ∧
    Api4.uploadFileStream envNoDriver simpleRequest =
      .ok { fileInfos := [⟨"", "f.txt", "", 0, ""⟩], clientIds := [] } ∧
    Api4v2.uploadFileStream envNoDriver simpleRequest =
      .ok { fileInfos := [⟨"", "f.txt", "", 0, ""⟩], clientIds := [] } :=
  ⟨rfl, rfl, rfl, rfl⟩

/-- A multipart body with a well-formed channel_id and a client_ids form
value of 10241 bytes — one byte over the 10 KiB cap.  Client ids undergo no
format validation, so this body is realizable as sent. -/
def partsBigValue : List MPart :=
  [⟨"channel_id", "", [3]⟩,
   ⟨"client_ids", "", List.replicate 10241 1⟩,
   ⟨"files", "a.txt", [10]⟩]

/-- C7: counterexample.  A form value exceeding the 10 KiB cap does not fail
the request with BadRequest: the multipart ingestor reads only the first
10240 bytes of the client_ids value and the request succeeds, returning the
silently truncated client id. -/
theorem C7_value_cap_counterexample :
    (List.replicate 10241 1 : Bytes).length > maxValueBytes ∧
    Api4.uploadFileMultipart env0 [] partsBigValue =
      .ok { fileInfos := [⟨"", "a.txt", "", 0, ""⟩],
            clientIds := [(List.replicate 10241 1 : Bytes).take maxValueBytes] } :=
  ⟨by rw [List.length_replicate]; norm_num [maxValueBytes], rfl⟩

/-- The Content-Type rule exactly as claim C8 words it, for comparison with
the source behaviour: empty becomes application/octet-stream, a stored type
equal to one of the listed unsafe types becomes text/plain, and any other
stored type is emitted unchanged. -/
def claimedContentType (contentType : String) : String :=
  if contentType = "" then "application/octet-stream"
  else if UNSAFE_CONTENT_TYPES.contains contentType then "text/plain"
  else contentType

/-- C8: counterexample.  For the stored type "text/html; charset=utf-8" the
handler emits text/plain (prefix match on text/html), while the claim, which
rewrites only types equal to a listed unsafe type, would emit the stored type
unchanged. -/
theorem C8_content_type_counterexample :
    List.lookup "Content-Type"
      (writeFileResponseHeaders (fun s => s) "f" "text/html; charset=utf-8" 0 false) =
      some "text/plain" ∧
    claimedContentType "text/html; charset=utf-8" = "text/html; charset=utf-8" ∧
    ("text/html; charset=utf-8" : String) ≠ "text/plain" :=
  ⟨rfl, by decide, by decide⟩

/-- The Content-Type rule of amended claim C8, with "matches" read as
prefix-matching, written with an any-combinator rather than the source's
loop with break. -/
def amendedContentType (contentType : String) : String :=
  if contentType = "" then "application/octet-stream"
  else if UNSAFE_CONTENT_TYPES.any (fun u => strHasPre u contentType) then
    "text/plain"
  else contentType

/-- The unsafe-type rewrite loop returns text/plain exactly when some list
entry is a prefix of the content type. -/
theorem rewriteLoop_eq_any (l : List String) (ct : String) :
    rewriteLoop l ct =
      if l.any (fun u => strHasPre u ct) then "text/plain" else ct := by
  induction l with
  | nil => rfl
  | cons u rest ih =>
      by_cases h : strHasPre u ct
      · simp [rewriteLoop, h]
      · simp [rewriteLoop, h, ih]

/-- C8: amended claim.  For every file-body response the emitted Content-Type
equals: application/octet-stream when the stored type is empty; text/plain
when one of the unsafe types is a prefix of the stored type; and the stored
type otherwise. -/
theorem C8_content_type_amended (esc : String → String) (filename : String)
    (contentType : String) (contentSize : Int) (forceDownload : Bool) :
    List.lookup "Content-Type"
      (writeFileResponseHeaders esc filename contentType contentSize forceDownload) =
      some (amendedContentType contentType) := by
  have hct : responseContentType contentType = amendedContentType contentType := by
    unfold responseContentType amendedContentType
    by_cases h : contentType = ""
    · simp [h]
    · simp [h, rewriteLoop_eq_any]
  unfold writeFileResponseHeaders
  by_cases hsz : contentSize > 0 <;> simp [hsz, List.lookup, hct]

/-- The media-list membership test exactly as claim C9 words it: the content
type is an element of the allowed media list. -/
def claimedIsMedia (contentType : String) : Bool :=
  MEDIA_CONTENT_TYPES.contains contentType

/-- C9: counterexample.  For the content type "video/mp4; codecs=x" with no
download requested the handler emits a Content-Disposition beginning with
inline (prefix match on video/mp4), while the type is not an element of the
allowed media list, so the claim demands attachment. -/
theorem C9_disposition_counterexample :
    List.lookup "Content-Disposition"
      (writeFileResponseHeaders (fun s => s) "f" "video/mp4; codecs=x" 0 false) =
      some (dispositionValue false "f") ∧
    strHasPre "inline" (dispositionValue false "f") = true ∧
    claimedIsMedia "video/mp4; codecs=x" = false :=
  ⟨rfl, rfl, by decide⟩

/-- The media test of amended claim C9, with list membership read as
prefix-matching, written with an any-combinator rather than the source's
loop with break. -/
def amendedIsMedia (contentType : String) : Bool :=
  MEDIA_CONTENT_TYPES.any (fun m => strHasPre m contentType)

/-- The media loop returns true exactly when some list entry is a prefix of
the content type. -/
theorem mediaLoop_eq_any (l : List String) (ct : String) :
    mediaLoop l ct = l.any (fun m => strHasPre m ct) := by
  induction l with
  | nil => rfl
  | cons m rest ih =>
      by_cases h : strHasPre m ct
      · simp [mediaLoop, h]
      · simp [mediaLoop, h, ih]

/-- C9: amended claim.  Every file-body response carries a
Content-Disposition built from the download decision; the value begins with
inline exactly when download was not forced and some allowed media type is a
prefix of the emitted content type, and it begins with attachment in every
other case. -/
theorem C9_disposition_amended (esc : String → String) (filename : String)
    (contentType : String) (contentSize : Int) (forceDownload : Bool) :
    List.lookup "Content-Disposition"
      (writeFileResponseHeaders esc filename contentType contentSize forceDownload) =
      some (dispositionValue
        (responseToDownload (responseContentType contentType) forceDownload)
        (esc filename)) ∧
    (∀ td n, strHasPre "inline" (dispositionValue td n) = ! td ∧
             strHasPre "attachment" (dispositionValue td n) = td) ∧
    responseToDownload (responseContentType contentType) forceDownload =
      ! (! forceDownload && amendedIsMedia (responseContentType contentType)) := by
  refine ⟨?_, ?_, ?_⟩
  · unfold writeFileResponseHeaders
    by_cases hsz : contentSize > 0 <;> simp [hsz, List.lookup]
  · intro td n
    cases td <;> exact ⟨rfl, rfl⟩
  · unfold responseToDownload
    cases forceDownload <;> simp [mediaLoop_eq_any, amendedIsMedia]

/-- C10: GetPublicFile looks up the FileInfo before validating the h
parameter.  Whenever the file id is well formed, public links are enabled,
and the lookup fails with an error, the handler returns exactly that error,
for every value of h — absent, invalid, or valid — so the hash check is only
reachable after a successful lookup. -/
theorem C10_lookup_before_hash (env : Env) (fileId : String) (h : Bytes)
    (e : AppError) (hvalid : env.isValidIdStr fileId = true)
    (hlink : env.enablePublicLink = true)
    (hget : env.getFileInfo fileId = .error e) :
    getPublicFile env fileId h = .err e := by
  unfold getPublicFile
  simp [hvalid, hlink, hget]

/-- C10: witness.  In the concrete environment whose store has no files, a
request with a well-formed id and an arbitrary h value returns the lookup
error with status 404. -/
theorem C10_lookup_before_hash_witness :
    getPublicFile env0 "fid" [5, 6] = .err fileInfoGetError ∧
    fileInfoGetError.statusCode = 404 :=
  ⟨C10_lookup_before_hash env0 "fid" [5, 6] fileInfoGetError rfl rfl rfl,
   by decide⟩

/-- A bitwise or of naturals is zero exactly when both are. -/
theorem nat_or_eq_zero (x y : Nat) : x ||| y = 0 ↔ x = 0 ∧ y = 0 := by
  constructor
  · intro h
    constructor
    · apply Nat.zero_of_testBit_eq_false
      intro i
      have hbit := congrArg (fun n => Nat.testBit n i) h
      simp only [Nat.testBit_lor, Nat.zero_testBit] at hbit
      exact (Bool.or_eq_false_iff.mp hbit).1
    · apply Nat.zero_of_testBit_eq_false
      intro i
      have hbit := congrArg (fun n => Nat.testBit n i) h
      simp only [Nat.testBit_lor, Nat.zero_testBit] at hbit
      exact (Bool.or_eq_false_iff.mp hbit).2
  · rintro ⟨rfl, rfl⟩
    rfl

/-- The or-accumulating fold of the comparison loop is zero exactly when the
accumulator and every element are zero. -/
theorem foldl_or_eq_zero (l : List Nat) (a : Nat) :
    l.foldl (fun acc w => acc ||| w) a = 0 ↔ a = 0 ∧ ∀ w ∈ l, w = 0 := by
  induction l generalizing a with
  | nil => simp
  | cons w t ih =>
      rw [List.foldl_cons, ih, nat_or_eq_zero]
      constructor
      · rintro ⟨⟨h1, h2⟩, h3⟩
        refine ⟨h1, ?_⟩
        intro x hx
        rcases List.mem_cons.mp hx with hx | hx
        · exact hx ▸ h2
        · exact h3 x hx
      · rintro ⟨h1, h2⟩
        exact ⟨⟨h1, h2 w (List.mem_cons_self w t)⟩,
          fun x hx => h2 x (List.mem_cons_of_mem w hx)⟩

/-- For equal-length byte strings, every xor of corresponding bytes is zero
exactly when the strings are equal. -/
theorem zipWith_xor_eq_zero (x : Bytes) : ∀ (y : Bytes), x.length = y.length →
    ((∀ w ∈ List.zipWith (fun a b => a ^^^ b) x y, w = 0) ↔ x = y) := by
  induction x with
  | nil =>
      intro y hlen
      cases y with
      | nil => simp
      | cons b bs => simp at hlen
  | cons a as ih =>
      intro y hlen
      cases y with
      | nil => simp at hlen
      | cons b bs =>
          have hlen2 : as.length = bs.length := by simpa using hlen
          simp only [List.zipWith_cons_cons, List.mem_cons, List.cons.injEq]
          constructor
          · intro hall
            have h1 : a ^^^ b = 0 := hall _ (Or.inl rfl)
            have h2 := (ih bs hlen2).mp (fun w hw => hall w (Or.inr hw))
            exact ⟨Nat.xor_eq_zero.mp h1, h2⟩
          · rintro ⟨rfl, rfl⟩
            intro w hw
            rcases hw with rfl | hw
            · exact Nat.xor_eq_zero.mpr rfl
            · exact (ih as rfl).mpr rfl w hw

/-- The or-accumulating fold of byte-sized values stays byte-sized. -/
theorem foldl_or_lt (l : List Nat) (a : Nat) (ha : a < 2 ^ 8)
    (hl : ∀ w ∈ l, w < 2 ^ 8) :
    l.foldl (fun acc w => acc ||| w) a < 2 ^ 8 := by
  induction l generalizing a with
  | nil => simpa using ha
  | cons w t ih =>
      rw [List.foldl_cons]
      exact ih (a ||| w)
        (Nat.or_lt_two_pow ha (hl w (List.mem_cons_self w t)))
        (fun x hx => hl x (List.mem_cons_of_mem w hx))

/-- The byte-equality primitive compared with zero answers one exactly on
zero, for accumulator values below 2^31. -/
theorem constantTimeByteEq_zero (v : Nat) (hv : v < 2 ^ 31) :
    constantTimeByteEq v 0 = 1 ↔ v = 0 := by
  unfold constantTimeByteEq
  rw [Nat.xor_zero, Nat.shiftRight_eq_div_pow]
  omega

/-- The xor of corresponding bytes of two byte strings stays byte-sized. -/
theorem zipWith_xor_lt (x : Bytes) : ∀ (y : Bytes), (∀ b ∈ x, b < 2 ^ 8) →
    (∀ b ∈ y, b < 2 ^ 8) →
    ∀ w ∈ List.zipWith (fun a b => a ^^^ b) x y, w < 2 ^ 8 := by
  induction x with
  | nil =>
      intro y _ _ w hw
      simp at hw
  | cons a as ih =>
      intro y hx hy w hw
      cases y with
      | nil => simp at hw
      | cons b bs =>
          simp only [List.zipWith_cons_cons, List.mem_cons] at hw
          rcases hw with rfl | hw
          · exact Nat.xor_lt_two_pow (hx a (List.mem_cons_self _ _))
              (hy b (List.mem_cons_self _ _))
          · exact ih bs (fun c hc => hx c (List.mem_cons_of_mem _ hc))
              (fun c hc => hy c (List.mem_cons_of_mem _ hc)) w hw

/-- The comparison returns one exactly on equal byte strings. -/
theorem constantTimeCompare_eq_one (x y : Bytes) (hx : ∀ b ∈ x, b < 2 ^ 8)
    (hy : ∀ b ∈ y, b < 2 ^ 8) :
    (constantTimeCompare x y = 1 ↔ x = y) := by
  unfold constantTimeCompare constantTimeCompareC
  by_cases hlen : x.length = y.length
  · have hv : (List.zipWith (fun a b => a ^^^ b) x y).foldl
        (fun acc w => acc ||| w) 0 < 2 ^ 31 := by
      have hfold := foldl_or_lt (List.zipWith (fun a b => a ^^^ b) x y) 0
        (by norm_num) (zipWith_xor_lt x y hx hy)
      omega
    simp only [hlen, ne_eq, not_true_eq_false, if_false, ite_false]
    rw [constantTimeByteEq_zero _ hv, foldl_or_eq_zero]
    simp only [true_and]
    exact zipWith_xor_eq_zero x y hlen
  · rw [if_pos hlen]
    constructor
    · intro h
      exact absurd h (by norm_num)
    · intro h
      exact absurd (h ▸ rfl) hlen

/-- C5: GetPublicFile verifies h against the recomputed public-link hash with
a constant-time comparison on the decoded query bytes.  First conjunct: when
the id is valid, public links are on, and the lookup succeeds, the handler
renders the invalid-hash error page exactly when h is absent or differs from
the recomputed hash — the outcome depends only on that equality.  Second
conjunct: the comparison performs the same number of loop iterations on any
two inputs of the same lengths.  Third conjunct: the comparison answers one
exactly on equal byte strings. -/
theorem C5_constant_time_hash_check :
    (∀ (env : Env) (fileId : String) (h : Bytes) (info : FileInfo),
      env.isValidIdStr fileId = true →
      env.enablePublicLink = true →
      env.getFileInfo fileId = .ok info →
      (∀ b ∈ h, b < 2 ^ 8) →
      (∀ b ∈ env.generatePublicLinkHash info.id env.publicLinkSalt, b < 2 ^ 8) →
      (getPublicFile env fileId h = .page publicInvalidError ↔
        (h = [] ∨ h ≠ env.generatePublicLinkHash info.id env.publicLinkSalt))) ∧
    (∀ x y x2 y2 : Bytes, x.length = x2.length → y.length = y2.length →
      (constantTimeCompareC x y).2 = (constantTimeCompareC x2 y2).2) ∧
    (∀ x y : Bytes, (∀ b ∈ x, b < 2 ^ 8) → (∀ b ∈ y, b < 2 ^ 8) →
      (constantTimeCompare x y = 1 ↔ x = y)) := by
  refine ⟨?_, ?_, constantTimeCompare_eq_one⟩
  · intro env fileId h info hvalid hlink hget hb hb2
    have hcmp := constantTimeCompare_eq_one h
      (env.generatePublicLinkHash info.id env.publicLinkSalt) hb hb2
    unfold getPublicFile
    rw [hvalid, hlink, hget]
    simp only [not_true_eq_false, if_false, ite_false]
    by_cases hlen : h.length = 0
    · have hnil : h = [] := List.length_eq_zero.mp hlen
      simp [hlen, hnil]
    · have hne : h ≠ [] := fun hn => hlen (hn ▸ rfl)
      by_cases heq : constantTimeCompare h
          (env.generatePublicLinkHash info.id env.publicLinkSalt) = 1
      · have hhash := hcmp.mp heq
        simp only [hlen, if_false, ite_false, heq, ne_eq, not_true_eq_false]
        constructor
        · intro hres
          rcases hfr : env.fileReader info.path with e | data <;>
            rw [hfr] at hres <;> simp at hres
        · intro hres
          rcases hres with hres | hres
          · exact absurd hres hne
          · exact absurd hhash hres
      · have hhash : h ≠ env.generatePublicLinkHash info.id env.publicLinkSalt :=
          fun he => heq (hcmp.mpr he)
        simp [hlen, heq, hhash]
  · intro x y x2 y2 hx hy
    unfold constantTimeCompareC
    by_cases hlen : x.length = y.length
    · have hlen2 : x2.length = y2.length := by rw [← hx, ← hy]; exact hlen
      simp [hlen, hlen2, hx, hy]
    · have hlen2 : ¬ x2.length = y2.length := by rw [← hx, ← hy]; exact hlen
      simp [hlen, hlen2]

/-- The witness environment for C5: the store holds one file and the hash of
every file under the configured salt is the byte string [1, 2]. -/
def envHash : Env :=
  { env0 with getFileInfo := fun _ => .ok ⟨"id1", "n", "", 0, "p"⟩ }

/-- C5: witness.  The first conjunct evaluated in a concrete environment at a
wrong hash renders the error page; the second at concrete same-length inputs;
the third at concrete equal inputs. -/
theorem C5_constant_time_hash_check_witness :
    (getPublicFile envHash "fid" [9] = .page publicInvalidError ↔
      (([9] : Bytes) = [] ∨ ([9] : Bytes) ≠
        envHash.generatePublicLinkHash "id1" envHash.publicLinkSalt)) ∧
    (constantTimeCompareC [1, 2] [3, 4]).2 = (constantTimeCompareC [5, 6] [7, 8]).2 ∧
    (constantTimeCompare [1, 2] [1, 2] = 1 ↔ ([1, 2] : Bytes) = [1, 2]) :=
  ⟨C5_constant_time_hash_check.1 envHash "fid" [9] ⟨"id1", "n", "", 0, "p"⟩
      rfl rfl rfl (by decide) (by decide),
   C5_constant_time_hash_check.2.1 [1, 2] [3, 4] [5, 6] [7, 8] rfl rfl,
   C5_constant_time_hash_check.2.2 [1, 2] [1, 2] (by decide) (by decide)⟩

namespace Api4v2

/-- A `client_ids` form-value part. -/
def cidPart (v : Bytes) : MPart := ⟨"client_ids", "", v⟩

/-- A `channel_id` form-value part. -/
def chPart (v : Bytes) : MPart := ⟨"channel_id", "", v⟩

/-- A file part filed under the form name `"files"`. -/
def filePart (f : String × Bytes) : MPart := ⟨"files", f.1, f.2⟩

/-- The upload context both multipart paths build for one file. -/
def uploadCtx (env : Env) (channelId : Bytes) (clientId : Bytes)
    (f : String × Bytes) : UploadFileContext :=
  { teamId := FILE_TEAM_ID, channelId := channelId, userId := env.userId,
    clientId := clientId, name := f.1, contentLength := -1, input := f.2 }

/-- Sequential upload of files paired with their client ids, stopping at the
first pipeline error — the common meaning both multipart paths refine. -/
def runUploads (env : Env) (channelId : Bytes) :
    List (Bytes × (String × Bytes)) → Except AppError (List FileInfo)
  | [] => .ok []
  | (cid, f) :: rest =>
    match env.uploadFile (uploadCtx env channelId cid f) with
    | .error e => .error e
    | .ok info =>
      match runUploads env channelId rest with
      | .error e => .error e
      | .ok infos => .ok (info :: infos)

/-- Form values after the 10 KiB cap of the streaming reader. -/
def truncVals (cids : List Bytes) : List Bytes :=
  cids.map (fun v => v.take maxValueBytes)

/-- The client_ids values supplied in a part list, in order, as the streaming
reader sees them (10 KiB cap applied). -/
def suppliedClientIds (parts : List MPart) : List Bytes :=
  (parts.filter (fun p => p.formname == "client_ids" && p.filename == "")).map
    partValue

/-- Stream step on a client_ids part while still expected: collect the value. -/
theorem stream_cons_cid (env : Env) (st : MpState) (v : Bytes) (rest : List MPart)
    (h : st.expectClientIds = true) :
    uploadFileMultipartStream env st (cidPart v :: rest) =
      uploadFileMultipartStream env
        { st with clientIds := st.clientIds ++ [v.take maxValueBytes] } rest := by
  simp [uploadFileMultipartStream, cidPart, partValue, h]

/-- Stream step on a client_ids part no longer expected: invalid parameter. -/
theorem stream_cons_cid_err (env : Env) (st : MpState) (v : Bytes)
    (rest : List MPart) (h : st.expectClientIds = false) :
    uploadFileMultipartStream env st (cidPart v :: rest) =
      .error (invalidUrlParam "client_ids") := by
  simp [uploadFileMultipartStream, cidPart, partValue, h]

/-- Stream step on a channel_id part: override the channel id when the value
is non-empty. -/
theorem stream_cons_ch (env : Env) (st : MpState) (v : Bytes) (rest : List MPart) :
    uploadFileMultipartStream env st (chPart v :: rest) =
      uploadFileMultipartStream env
        (if v.take maxValueBytes ≠ [] then
          { st with channelId := v.take maxValueBytes } else st) rest := rfl

/-- Stream step on a file part: run `fileStep` and continue. -/
theorem stream_cons_file (env : Env) (st : MpState) (f : String × Bytes)
    (rest : List MPart) (hf : f.1 ≠ "") :
    uploadFileMultipartStream env st (filePart f :: rest) =
      match fileStep env st f.1 f.2 with
      | .error e => .error e
      | .ok st2 => uploadFileMultipartStream env st2 rest := by
  simp [uploadFileMultipartStream, filePart, hf]

/-- Re-clearing an already cleared expectation flag leaves the state alone. -/
theorem set_expect_false_eq (st : MpState) (h : st.expectClientIds = false) :
    { st with expectClientIds := false } = st := by
  cases st
  simp_all

/-- Evaluation of `fileStep` when the channel is valid and permitted and the
client-id bookkeeping cannot fail: the upload runs with the selected client
id and the state advances. -/
theorem fileStep_eval (env : Env) (st : MpState) (f : String × Bytes)
    (hvalid : env.isValidId st.channelId = true)
    (hperm : env.hasUploadPerm st.channelId = true)
    (hexp : st.expectClientIds = true →
      (¬ (st.nFiles = 0 ∧ st.clientIds = []) ∧ st.nFiles < st.clientIds.length)) :
    fileStep env st f.1 f.2 = (
      let cid := if st.expectClientIds then st.clientIds.getD st.nFiles [] else []
      match env.uploadFile (uploadCtx env st.channelId cid f) with
      | .error e => .error e
      | .ok info =>
          .ok { st with fileInfos := st.fileInfos ++ [info],
                        respClientIds := (if st.expectClientIds then
                          st.respClientIds ++ [cid] else st.respClientIds),
                        nFiles := st.nFiles + 1 }) := by
  by_cases he : st.expectClientIds = true
  · obtain ⟨hc, hlt⟩ := hexp he
    simp [fileStep, hvalid, hperm, hc, he, uploadCtx, Nat.not_le.mpr hlt]
  · have he2 : st.expectClientIds = false := by
      cases hb : st.expectClientIds
      · rfl
      · exact absurd hb he
    by_cases hc : st.nFiles = 0 ∧ st.clientIds = []
    · simp [fileStep, hvalid, hperm, hc, he2, uploadCtx, set_expect_false_eq st he2]
    · simp [fileStep, hvalid, hperm, hc, he2, uploadCtx]

/-- Stream processing of a run of client_ids parts while expected: all values
are collected in order, capped at 10 KiB each. -/
theorem stream_collect (env : Env) (cids : List Bytes) :
    ∀ (st : MpState) (rest : List MPart), st.expectClientIds = true →
    uploadFileMultipartStream env st (cids.map cidPart ++ rest) =
      uploadFileMultipartStream env
        { st with clientIds := st.clientIds ++ truncVals cids } rest := by
  induction cids with
  | nil =>
      intro st rest _
      simp [truncVals]
  | cons v t ih =>
      intro st rest h
      rw [List.map_cons, List.cons_append, stream_cons_cid env st v _ h]
      rw [ih _ rest (by simpa using h)]
      simp [truncVals, List.append_assoc]

/-- Stream processing of a run of file parts after the client-id expectation
has been cleared: every file is uploaded with an empty client id and the
response client ids are untouched. -/
theorem stream_files_noexpect (env : Env) (fs : List (String × Bytes)) :
    ∀ (st : MpState) (rest : List MPart),
    env.isValidId st.channelId = true →
    env.hasUploadPerm st.channelId = true →
    st.expectClientIds = false →
    (∀ f ∈ fs, f.1 ≠ "") →
    uploadFileMultipartStream env st (fs.map filePart ++ rest) =
      match runUploads env st.channelId (fs.map (fun f => (([] : Bytes), f))) with
      | .error e => .error e
      | .ok infos =>
          uploadFileMultipartStream env
            { st with nFiles := st.nFiles + fs.length,
                      fileInfos := st.fileInfos ++ infos } rest := by
  induction fs with
  | nil =>
      intro st rest _ _ _ _
      simp [runUploads]
  | cons f t ih =>
      intro st rest hvalid hperm hexp hf
      rw [List.map_cons, List.cons_append,
        stream_cons_file env st f _ (hf f (List.mem_cons_self f t))]
      rw [fileStep_eval env st f hvalid hperm (by simp [hexp])]
      simp only [hexp, Bool.false_eq_true, if_false, ite_false]
      rcases hup : env.uploadFile (uploadCtx env st.channelId [] f) with e | info
      · simp [runUploads, hup]
      · simp only [runUploads, hup]
        rw [ih _ rest (by simp [hvalid]) (by simp [hperm])
          (by simp [hexp]) (fun g hg => hf g (List.mem_cons_of_mem f hg))]
        rcases hru : runUploads env st.channelId
            (t.map fun f => (([] : Bytes), f)) with e2 | infos
        · simp [hru]
        · simp only [hru]
          rw [List.append_assoc, List.singleton_append]
          have harith : st.nFiles + 1 + t.length = st.nFiles + (f :: t).length := by
            simp only [List.length_cons]
            omega
          rw [harith]

/-- Stream processing of a run of file parts while client ids are expected
and exactly cover the files from position k on: file i is uploaded with
client id number k + i and both response lists grow in lockstep. -/
theorem stream_files_expect (env : Env) (cids : List Bytes)
    (fs : List (String × Bytes)) :
    ∀ (k : Nat) (CID : Bytes) (acc : List FileInfo) (racc : List Bytes),
    env.isValidId CID = true →
    env.hasUploadPerm CID = true →
    k + fs.length = cids.length →
    (∀ f ∈ fs, f.1 ≠ "") →
    uploadFileMultipartStream env ⟨CID, true, cids, k, acc, racc⟩
        (fs.map filePart) =
      match runUploads env CID (List.zipWith Prod.mk (cids.drop k) fs) with
      | .error e => .error e
      | .ok infos => .ok ⟨acc ++ infos, racc ++ cids.drop k⟩ := by
  induction fs with
  | nil =>
      intro k CID acc racc _ _ hk _
      simp only [List.length_nil, Nat.add_zero] at hk
      subst hk
      simp [uploadFileMultipartStream, finishLoop, List.drop_length, runUploads]
  | cons f t ih =>
      intro k CID acc racc hvalid hperm hk hf
      have hklt : k < cids.length := by
        simp only [List.length_cons] at hk
        omega
      have hdrop : cids.drop k = cids.getD k [] :: cids.drop (k + 1) := by
        rw [List.getD_eq_getElem _ _ hklt]
        exact List.drop_eq_getElem_cons hklt
      rw [List.map_cons]
      rw [stream_cons_file env _ f _ (hf f (List.mem_cons_self f t))]
      rw [fileStep_eval env _ f hvalid hperm (by
        intro _
        refine ⟨?_, hklt⟩
        rintro ⟨_, hnil⟩
        have hcids : cids = [] := hnil
        rw [hcids] at hklt
        simp at hklt)]
      dsimp only
      simp only [if_true]
      rcases hup : env.uploadFile (uploadCtx env CID (cids.getD k []) f) with e | info
      · rw [hdrop]
        simp only [List.zipWith_cons_cons, runUploads]
        rw [hup]
      · dsimp only
        rw [ih (k + 1) CID (acc ++ [info]) (racc ++ [cids.getD k []]) hvalid hperm
          (by simp only [List.length_cons] at hk; omega)
          (fun g hg => hf g (List.mem_cons_of_mem f hg))]
        rw [hdrop]
        simp only [List.zipWith_cons_cons, runUploads]
        rw [hup]
        rcases hru : runUploads env CID
            (List.zipWith Prod.mk (cids.drop (k + 1)) t) with e2 | infos
        · rfl
        · simp [List.append_assoc]

/-- When the pipeline never fails, the sequential upload never fails. -/
theorem runUploads_ok (env : Env) (CID : Bytes)
    (hok : ∀ ctx, ∃ info, env.uploadFile ctx = .ok info) :
    ∀ ps : List (Bytes × (String × Bytes)),
    ∃ infos, runUploads env CID ps = .ok infos := by
  intro ps
  induction ps with
  | nil => exact ⟨[], rfl⟩
  | cons p t ih =>
      obtain ⟨info, hi⟩ := hok (uploadCtx env CID p.1 p.2)
      obtain ⟨infos, his⟩ := ih
      rcases p with ⟨cid, f⟩
      exact ⟨info :: infos, by simp [runUploads, hi, his]⟩

/-- The very first file with no client ids collected clears the expectation
flag and uploads with an empty client id. -/
theorem fileStep_flip (env : Env) (CID : Bytes) (acc : List FileInfo)
    (racc : List Bytes) (f : String × Bytes)
    (hvalid : env.isValidId CID = true)
    (hperm : env.hasUploadPerm CID = true) :
    fileStep env ⟨CID, true, [], 0, acc, racc⟩ f.1 f.2 =
      match env.uploadFile (uploadCtx env CID [] f) with
      | .error e => .error e
      | .ok info => .ok ⟨CID, false, [], 1, acc ++ [info], racc⟩ := by
  simp [fileStep, hvalid, hperm, uploadCtx]

/-- A file arriving while ids are expected but exhausted fails with the
invalid-parameter error. -/
theorem fileStep_too_few (env : Env) (st : MpState) (f : String × Bytes)
    (hvalid : env.isValidId st.channelId = true)
    (hperm : env.hasUploadPerm st.channelId = true)
    (hexp : st.expectClientIds = true)
    (hcond : ¬ (st.nFiles = 0 ∧ st.clientIds = []))
    (hge : st.clientIds.length ≤ st.nFiles) :
    fileStep env st f.1 f.2 = .error (invalidUrlParam "client_ids") := by
  simp [fileStep, hvalid, hperm, hcond, hexp, hge]

/-- Stream processing of file parts from a state with no collected client ids
and the expectation still open: the first file clears the expectation and all
files upload with empty client ids. -/
theorem stream_files_fresh (env : Env) (CID : Bytes) (f : String × Bytes)
    (t : List (String × Bytes)) (rest : List MPart) (acc : List FileInfo)
    (racc : List Bytes)
    (hvalid : env.isValidId CID = true)
    (hperm : env.hasUploadPerm CID = true)
    (hf : ∀ g ∈ f :: t, g.1 ≠ "") :
    uploadFileMultipartStream env ⟨CID, true, [], 0, acc, racc⟩
        ((f :: t).map filePart ++ rest) =
      match runUploads env CID ((f :: t).map (fun g => (([] : Bytes), g))) with
      | .error e => .error e
      | .ok infos =>
          uploadFileMultipartStream env
            ⟨CID, false, [], (f :: t).length, acc ++ infos, racc⟩ rest := by
  rw [List.map_cons, List.cons_append,
    stream_cons_file env _ f _ (hf f (List.mem_cons_self f t))]
  rw [fileStep_flip env CID acc racc f hvalid hperm]
  rcases hup : env.uploadFile (uploadCtx env CID [] f) with e | info
  · simp [runUploads, hup]
  · dsimp only
    rw [stream_files_noexpect env t ⟨CID, false, [], 1, acc ++ [info], racc⟩
      rest hvalid hperm rfl (fun g hg => hf g (List.mem_cons_of_mem f hg))]
    simp only [runUploads, hup, List.map_cons]
    rcases hru : runUploads env CID (t.map fun g => (([] : Bytes), g)) with e2 | infos
    · rfl
    · simp only
      rw [List.append_assoc, List.singleton_append]
      have harith : 1 + t.length = (f :: t).length := by
        simp only [List.length_cons]
        omega
      rw [harith]

/-- Stream processing of file parts while ids are expected but too few were
supplied: when the pipeline itself never fails, the run fails with the
invalid-parameter error at the first uncovered file. -/
theorem stream_files_overflow (env : Env) (cids : List Bytes)
    (hok : ∀ ctx, ∃ info, env.uploadFile ctx = .ok info) :
    ∀ (fs : List (String × Bytes)) (k : Nat) (CID : Bytes)
      (acc : List FileInfo) (racc : List Bytes),
    env.isValidId CID = true →
    env.hasUploadPerm CID = true →
    cids ≠ [] → k ≤ cids.length → cids.length < k + fs.length →
    (∀ f ∈ fs, f.1 ≠ "") →
    uploadFileMultipartStream env ⟨CID, true, cids, k, acc, racc⟩
        (fs.map filePart) = .error (invalidUrlParam "client_ids") := by
  intro fs
  induction fs with
  | nil =>
      intro k CID acc racc _ _ _ hle hlt _
      simp only [List.length_nil] at hlt
      omega
  | cons f t ih =>
      intro k CID acc racc hvalid hperm hcne hle hlt hf
      by_cases hk : k < cids.length
      · rw [List.map_cons, stream_cons_file env _ f _ (hf f (List.mem_cons_self f t))]
        rw [fileStep_eval env _ f hvalid hperm (by
          intro _
          refine ⟨?_, hk⟩
          rintro ⟨_, hnil⟩
          exact hcne hnil)]
        dsimp only
        simp only [if_true]
        obtain ⟨info, hi⟩ := hok (uploadCtx env CID (cids.getD k []) f)
        rw [hi]
        dsimp only
        exact ih (k + 1) CID (acc ++ [info]) (racc ++ [cids.getD k []])
          hvalid hperm hcne hk (by simp only [List.length_cons] at hlt ⊢; omega)
          (fun g hg => hf g (List.mem_cons_of_mem f hg))
      · have hkeq : cids.length ≤ k := by omega
        rw [List.map_cons, stream_cons_file env _ f _ (hf f (List.mem_cons_self f t))]
        rw [fileStep_too_few env _ f hvalid hperm rfl
          (by rintro ⟨_, hnil⟩; exact hcne hnil) hkeq]

/-- One buffered-loop step with no client ids supplied. -/
theorem bufferedLoop_cons_none (env : Env) (CID : Bytes)
    (acc : FileUploadResponse) (i : Nat) (fh : MPart) (t : List MPart) :
    bufferedLoop env CID [] acc i (fh :: t) =
      match env.uploadFile (uploadCtx env CID [] (fh.filename, fh.content)) with
      | .error e => .error e
      | .ok info =>
          bufferedLoop env CID [] ⟨acc.fileInfos ++ [info], acc.clientIds⟩ (i + 1) t := by
  rcases acc with ⟨accF, accC⟩
  simp [bufferedLoop, uploadCtx]

/-- One buffered-loop step with client ids supplied and the current one
non-empty: it is appended to the response. -/
theorem bufferedLoop_cons_some (env : Env) (CID : Bytes) (cids : List Bytes)
    (acc : FileUploadResponse) (i : Nat) (fh : MPart) (t : List MPart)
    (hpos : 0 < cids.length) (hne : cids.getD i [] ≠ []) :
    bufferedLoop env CID cids acc i (fh :: t) =
      match env.uploadFile (uploadCtx env CID (cids.getD i [])
          (fh.filename, fh.content)) with
      | .error e => .error e
      | .ok info =>
          bufferedLoop env CID cids
            ⟨acc.fileInfos ++ [info], acc.clientIds ++ [cids.getD i []]⟩ (i + 1) t := by
  rcases acc with ⟨accF, accC⟩
  simp only [List.getD_eq_getElem?_getD] at hne
  simp [bufferedLoop, uploadCtx, hpos, hne]

/-- The buffered file loop with no client ids: every file uploads with an
empty client id and the response client ids stay as accumulated. -/
theorem bufferedLoop_none (env : Env) (CID : Bytes) :
    ∀ (fhs : List MPart) (i : Nat) (accF : List FileInfo) (accC : List Bytes),
    bufferedLoop env CID [] ⟨accF, accC⟩ i fhs =
      match runUploads env CID
          (fhs.map (fun p => (([] : Bytes), (p.filename, p.content)))) with
      | .error e => .error e
      | .ok infos => .ok ⟨accF ++ infos, accC⟩ := by
  intro fhs
  induction fhs with
  | nil =>
      intro i accF accC
      simp [bufferedLoop, runUploads]
  | cons fh t ih =>
      intro i accF accC
      rw [bufferedLoop_cons_none, List.map_cons]
      rcases hup : env.uploadFile (uploadCtx env CID [] (fh.filename, fh.content))
        with e | info
      · simp [runUploads, hup]
      · dsimp only
        rw [ih (i + 1) (accF ++ [info]) accC]
        simp only [runUploads, hup]
        split
        · rfl
        · simp [List.append_assoc]

/-- The buffered file loop with one non-empty client id per remaining file:
file i uploads with client id number i and every id is appended. -/
theorem bufferedLoop_some (env : Env) (CID : Bytes) (cids : List Bytes)
    (hnon : ∀ v ∈ cids, v ≠ []) :
    ∀ (fhs : List MPart) (i : Nat) (accF : List FileInfo) (accC : List Bytes),
    i + fhs.length = cids.length →
    bufferedLoop env CID cids ⟨accF, accC⟩ i fhs =
      match runUploads env CID (List.zipWith Prod.mk (cids.drop i)
          (fhs.map (fun p => (p.filename, p.content)))) with
      | .error e => .error e
      | .ok infos => .ok ⟨accF ++ infos, accC ++ cids.drop i⟩ := by
  intro fhs
  induction fhs with
  | nil =>
      intro i accF accC hi
      simp only [List.length_nil, Nat.add_zero] at hi
      subst hi
      simp [bufferedLoop, runUploads, List.drop_length]
  | cons fh t ih =>
      intro i accF accC hi
      have hilt : i < cids.length := by
        simp only [List.length_cons] at hi
        omega
      have hmem : cids.getD i [] ∈ cids := by
        rw [List.getD_eq_getElem _ _ hilt]
        exact List.getElem_mem hilt
      have hdrop : cids.drop i = cids.getD i [] :: cids.drop (i + 1) := by
        rw [List.getD_eq_getElem _ _ hilt]
        exact List.drop_eq_getElem_cons hilt
      rw [bufferedLoop_cons_some env CID cids _ i fh t
        (by omega) (hnon _ hmem), List.map_cons, hdrop]
      simp only [List.zipWith_cons_cons, runUploads]
      rcases hup : env.uploadFile (uploadCtx env CID (cids.getD i [])
          (fh.filename, fh.content)) with e | info
      · rfl
      · dsimp only
        rw [ih (i + 1) (accF ++ [info]) (accC ++ [cids.getD i []])
          (by simp only [List.length_cons] at hi; omega)]
        split
        · rfl
        · simp [List.append_assoc]

/-- Form values distribute over appended part lists. -/
theorem formValues_append (l1 l2 : List MPart) (name : String) :
    formValues (l1 ++ l2) name = formValues l1 name ++ formValues l2 name := by
  simp [formValues, List.filter_append]

/-- Form files distribute over appended part lists. -/
theorem formFiles_append (l1 l2 : List MPart) :
    formFiles (l1 ++ l2) = formFiles l1 ++ formFiles l2 := by
  simp [formFiles, List.filter_append]

/-- The client_ids values of a run of client_ids parts are the values. -/
theorem formValues_cidParts_self (cids : List Bytes) :
    formValues (cids.map cidPart) "client_ids" = cids := by
  induction cids with
  | nil => rfl
  | cons v t ih =>
      simp only [List.map_cons, formValues, cidPart] at ih ⊢
      simp_all

/-- A run of client_ids parts has no channel_id values. -/
theorem formValues_cidParts_ch (cids : List Bytes) :
    formValues (cids.map cidPart) "channel_id" = [] := by
  induction cids with
  | nil => rfl
  | cons v t ih =>
      simp only [List.map_cons, formValues, cidPart] at ih ⊢
      simp_all

/-- A run of client_ids parts contains no files. -/
theorem formFiles_cidParts (cids : List Bytes) :
    formFiles (cids.map cidPart) = [] := by
  induction cids with
  | nil => rfl
  | cons v t ih =>
      simp only [List.map_cons, formFiles, cidPart] at ih ⊢
      simp_all

/-- File parts with non-empty file names contribute no form values. -/
theorem formValues_fileParts (fs : List (String × Bytes)) (name : String)
    (hfs : ∀ f ∈ fs, f.1 ≠ "") :
    formValues (fs.map filePart) name = [] := by
  induction fs with
  | nil => rfl
  | cons f t ih =>
      have hf : f.1 ≠ "" := hfs f (List.mem_cons_self f t)
      have ht := ih (fun g hg => hfs g (List.mem_cons_of_mem f hg))
      simpa [formValues, List.filter_cons, filePart, hf] using ht

/-- File parts with non-empty file names are all files of the form. -/
theorem formFiles_fileParts (fs : List (String × Bytes))
    (hfs : ∀ f ∈ fs, f.1 ≠ "") :
    formFiles (fs.map filePart) = fs.map filePart := by
  induction fs with
  | nil => rfl
  | cons f t ih =>
      have hf : f.1 ≠ "" := hfs f (List.mem_cons_self f t)
      have ht := ih (fun g hg => hfs g (List.mem_cons_of_mem f hg))
      simp only [List.map_cons, formFiles, List.filter_cons] at ht ⊢
      simpa [filePart, hf] using ht

/-- Projecting filename and content out of built file parts gives back the
original pairs. -/
theorem fileParts_proj (fs : List (String × Bytes)) :
    (fs.map filePart).map (fun p => (p.filename, p.content)) = fs := by
  induction fs with
  | nil => rfl
  | cons f t ih => simp [filePart, ih]

/-- Projecting built file parts to empty-id upload pairs. -/
theorem fileParts_proj_nil (fs : List (String × Bytes)) :
    (fs.map filePart).map (fun p => (([] : Bytes), (p.filename, p.content))) =
      fs.map (fun f => (([] : Bytes), f)) := by
  induction fs with
  | nil => rfl
  | cons f t ih => simp [filePart, ih]

/-- Values below the cap are unchanged by truncation. -/
theorem truncVals_eq (cids : List Bytes)
    (h : ∀ v ∈ cids, v.length ≤ maxValueBytes) : truncVals cids = cids := by
  induction cids with
  | nil => rfl
  | cons v t ih =>
      have hv := List.take_of_length_le (h v (List.mem_cons_self v t))
      have ht := ih (fun w hw => h w (List.mem_cons_of_mem v hw))
      simp only [truncVals, List.map_cons] at ht ⊢
      simp_all

/-- Buffered-scan step on a client_ids part while expected: collect it. -/
theorem bufscan_cons_cid (env : Env) (allParts : List MPart) (st : MpState)
    (v : Bytes) (rest : List MPart) (h : st.expectClientIds = true) :
    uploadFileMultipartBufScan env allParts st (cidPart v :: rest) =
      uploadFileMultipartBufScan env allParts
        { st with clientIds := st.clientIds ++ [v.take maxValueBytes] } rest := by
  simp [uploadFileMultipartBufScan, cidPart, partValue, h]

/-- Buffered-scan step on a channel_id part with a non-empty value: record it
and re-process the whole message in streaming mode. -/
theorem bufscan_cons_ch (env : Env) (allParts : List MPart) (st : MpState)
    (v : Bytes) (rest : List MPart) (hv : v.take maxValueBytes ≠ []) :
    uploadFileMultipartBufScan env allParts st (chPart v :: rest) =
      uploadFileMultipartStream env (initState (v.take maxValueBytes)) allParts := by
  simp [uploadFileMultipartBufScan, chPart, partValue, hv]

/-- Buffered-scan step on a file part before any channel id is known: parse
the whole message buffered. -/
theorem bufscan_cons_file_nochannel (env : Env) (allParts : List MPart)
    (st : MpState) (p : MPart) (rest : List MPart)
    (hform : p.formname ≠ "") (hfile : p.filename ≠ "")
    (hch : st.channelId = []) :
    uploadFileMultipartBufScan env allParts st (p :: rest) =
      uploadFileMultipartBuffered env allParts := by
  simp [uploadFileMultipartBufScan, hform, hfile, hch]

/-- Buffered-scan processing of a run of client_ids parts while expected. -/
theorem bufscan_collect (env : Env) (allParts : List MPart) (cids : List Bytes) :
    ∀ (st : MpState) (rest : List MPart), st.expectClientIds = true →
    uploadFileMultipartBufScan env allParts st (cids.map cidPart ++ rest) =
      uploadFileMultipartBufScan env allParts
        { st with clientIds := st.clientIds ++ truncVals cids } rest := by
  induction cids with
  | nil =>
      intro st rest _
      simp [truncVals]
  | cons v t ih =>
      intro st rest h
      rw [List.map_cons, List.cons_append, bufscan_cons_cid env allParts st v _ h]
      rw [ih _ rest (by simp [h])]
      simp [truncVals, List.append_assoc]

/-- The channel_id part of a singleton list is its value. -/
theorem formValues_chPart_self (v : Bytes) :
    formValues [chPart v] "channel_id" = [v] := rfl

/-- A channel_id part contributes no client_ids value. -/
theorem formValues_chPart_cid (v : Bytes) :
    formValues [chPart v] "client_ids" = [] := rfl

/-- A channel_id part is not a file. -/
theorem formFiles_chPart (v : Bytes) : formFiles [chPart v] = [] := rfl

/-- C3: amended claim.  Moving the channel_id form field from before all
other parts to after them yields an identical result, provided the client_ids
fields precede the first file part, file parts are filed under the form name
"files", values are non-empty and within the 10 KiB cap, and the client ids
are absent or one per file.  (As stated, with a client_ids field after the
first file part, the claim fails: the streaming path rejects what the
buffered fallback accepts.) -/
theorem C3_order_equivalence_amended (env : Env) (CID : Bytes)
    (cids : List Bytes) (fs : List (String × Bytes))
    (hCIDne : CID ≠ []) (hCIDlen : CID.length ≤ maxValueBytes)
    (hvalid : env.isValidId CID = true)
    (hperm : env.hasUploadPerm CID = true)
    (hcids : ∀ v ∈ cids, v ≠ [] ∧ v.length ≤ maxValueBytes)
    (hfs : ∀ f ∈ fs, f.1 ≠ "")
    (hne : fs ≠ [])
    (hlen : cids = [] ∨ cids.length = fs.length) :
    uploadFileMultipart env []
        (chPart CID :: (cids.map cidPart ++ fs.map filePart)) bufferedMode =
      uploadFileMultipart env []
        (cids.map cidPart ++ fs.map filePart ++ [chPart CID]) bufferedMode := by
  have hCIDt : CID.take maxValueBytes = CID := List.take_of_length_le hCIDlen
  have htrunc : truncVals cids = cids := truncVals_eq cids (fun v hv => (hcids v hv).2)
  have hnon : ∀ v ∈ cids, v ≠ [] := fun v hv => (hcids v hv).1
  obtain ⟨f, t, rfl⟩ : ∃ g u, fs = g :: u := by
    cases fs with
    | nil => exact absurd rfl hne
    | cons g u => exact ⟨g, u, rfl⟩
  -- Left side: channel_id first, rewind into streaming mode.
  have hA : uploadFileMultipart env []
      (chPart CID :: (cids.map cidPart ++ (f :: t).map filePart)) bufferedMode =
      uploadFileMultipartStream env ⟨CID, true, cids, 0, [], []⟩
        ((f :: t).map filePart) := by
    show uploadFileMultipartBufScan env _ (initState []) _ = _
    rw [bufscan_cons_ch env _ (initState []) CID _ (by rw [hCIDt]; exact hCIDne)]
    rw [hCIDt]
    rw [stream_cons_ch env (initState CID) CID _]
    rw [hCIDt, if_pos hCIDne]
    rw [show ({ initState CID with channelId := CID } : MpState) =
      initState CID from rfl]
    rw [stream_collect env cids (initState CID) _ rfl]
    rw [show ({ initState CID with clientIds :=
        (initState CID).clientIds ++ truncVals cids } : MpState) =
      ⟨CID, true, truncVals cids, 0, [], []⟩ from by simp [initState]]
    rw [htrunc]
  -- Right side: channel_id last, buffered fallback.
  have hB : uploadFileMultipart env []
      (cids.map cidPart ++ (f :: t).map filePart ++ [chPart CID]) bufferedMode =
      uploadFileMultipartBuffered env
        (cids.map cidPart ++ (f :: t).map filePart ++ [chPart CID]) := by
    show uploadFileMultipartBufScan env _ (initState []) _ = _
    rw [show cids.map cidPart ++ (f :: t).map filePart ++ [chPart CID] =
      cids.map cidPart ++ ((f :: t).map filePart ++ [chPart CID]) from by
        rw [List.append_assoc]]
    rw [bufscan_collect env _ cids (initState []) _ rfl]
    rw [show (f :: t).map filePart ++ [chPart CID] =
      filePart f :: (t.map filePart ++ [chPart CID]) from by
        rw [List.map_cons, List.cons_append]]
    rw [bufscan_cons_file_nochannel env _ _ (filePart f) _
      (by simp [filePart]) (hfs f (List.mem_cons_self f t)) rfl]
  rw [hA, hB]
  -- Evaluate the buffered form parse.
  have hchv : formValues
      (cids.map cidPart ++ (f :: t).map filePart ++ [chPart CID])
      "channel_id" = [CID] := by
    rw [List.append_assoc, formValues_append, formValues_append,
      formValues_cidParts_ch, formValues_fileParts _ _ hfs,
      formValues_chPart_self]
    rfl
  have hcidv : formValues
      (cids.map cidPart ++ (f :: t).map filePart ++ [chPart CID])
      "client_ids" = cids := by
    rw [List.append_assoc, formValues_append, formValues_append,
      formValues_cidParts_self, formValues_fileParts _ _ hfs,
      formValues_chPart_cid]
    simp
  have hfilesv : formFiles
      (cids.map cidPart ++ (f :: t).map filePart ++ [chPart CID]) =
      (f :: t).map filePart := by
    rw [List.append_assoc, formFiles_append, formFiles_append,
      formFiles_cidParts, formFiles_fileParts _ hfs, formFiles_chPart]
    simp
  rw [uploadFileMultipartBuffered, hchv, hcidv, hfilesv]
  rcases hlen with rfl | hlen2
  · -- No client ids at all.
    simp only [List.length_nil, List.length_cons, ne_eq, List.getD]
    rw [if_neg (by simp), if_neg (by simp [hvalid]), if_neg (by simp [hperm]),
      if_neg (by simp)]
    rw [show (([CID].get? 0).getD [] : Bytes) = CID from rfl]
    rw [bufferedLoop_none env CID ((f :: t).map filePart) 0 [] []]
    rw [fileParts_proj_nil]
    rw [show (⟨CID, true, [], 0, [], []⟩ : MpState) =
      ⟨CID, true, [], 0, ([] : List FileInfo), ([] : List Bytes)⟩ from rfl]
    rw [← List.append_nil ((f :: t).map filePart)]
    rw [stream_files_fresh env CID f t [] [] [] hvalid hperm hfs]
    rcases runUploads env CID ((f :: t).map fun g => (([] : Bytes), g)) with e | infos
    · rfl
    · simp [uploadFileMultipartStream, finishLoop]
  · -- One client id per file.
    have hpos : 0 < cids.length := by
      rw [hlen2]
      simp
    simp only [List.getD]
    rw [if_neg (by simp), if_neg (by simp [hvalid]), if_neg (by simp [hperm]),
      if_neg (by rw [List.length_map]; rintro ⟨_, hno⟩; exact hno hlen2)]
    rw [show (([CID].get? 0).getD [] : Bytes) = CID from rfl]
    rw [bufferedLoop_some env CID cids hnon ((f :: t).map filePart) 0 [] []
      (by rw [List.length_map]; omega)]
    rw [fileParts_proj]
    rw [stream_files_expect env cids (f :: t) 0 CID [] [] hvalid hperm
      (by omega) hfs]

/-- C2: amended claim.  First conjunct: if no client_ids was seen before the
first file part, the expectation is fixed at none, and a client_ids field
arriving later fails the request with the invalid-parameter error (status
400) — it is not ignored.  Second conjunct: if client ids were seen before
the first file part, every file part must be covered by one, and a missing
one fails the request with the same error. -/
theorem C2_client_ids_binding_amended :
    (∀ (env : Env) (CID v : Bytes) (fs : List (String × Bytes))
      (rest : List MPart),
      env.isValidId CID = true → env.hasUploadPerm CID = true →
      CID ≠ [] → CID.length ≤ maxValueBytes →
      (∀ ctx, ∃ info, env.uploadFile ctx = .ok info) →
      fs ≠ [] → (∀ f ∈ fs, f.1 ≠ "") →
      uploadFileMultipart env []
        (chPart CID :: (fs.map filePart ++ cidPart v :: rest)) bufferedMode =
        .error (invalidUrlParam "client_ids")) ∧
    (∀ (env : Env) (CID : Bytes) (cids : List Bytes)
      (fs : List (String × Bytes)),
      env.isValidId CID = true → env.hasUploadPerm CID = true →
      CID ≠ [] → CID.length ≤ maxValueBytes →
      (∀ ctx, ∃ info, env.uploadFile ctx = .ok info) →
      cids ≠ [] → cids.length < fs.length → (∀ f ∈ fs, f.1 ≠ "") →
      uploadFileMultipart env []
        (chPart CID :: (cids.map cidPart ++ fs.map filePart)) bufferedMode =
        .error (invalidUrlParam "client_ids")) := by
  constructor
  · intro env CID v fs rest hvalid hperm hCIDne hCIDlen hok hne hfs
    have hCIDt : CID.take maxValueBytes = CID := List.take_of_length_le hCIDlen
    obtain ⟨f, t, rfl⟩ : ∃ g u, fs = g :: u := by
      cases fs with
      | nil => exact absurd rfl hne
      | cons g u => exact ⟨g, u, rfl⟩
    show uploadFileMultipartBufScan env _ (initState []) _ = _
    rw [bufscan_cons_ch env _ (initState []) CID _ (by rw [hCIDt]; exact hCIDne)]
    rw [hCIDt]
    rw [stream_cons_ch env (initState CID) CID _]
    rw [hCIDt, if_pos hCIDne]
    rw [show ({ initState CID with channelId := CID } : MpState) =
      initState CID from rfl]
    rw [show (initState CID : MpState) = ⟨CID, true, [], 0, [], []⟩ from rfl]
    rw [stream_files_fresh env CID f t (cidPart v :: rest) [] []
      hvalid hperm hfs]
    obtain ⟨infos, hinf⟩ := runUploads_ok env CID hok
      ((f :: t).map (fun g => (([] : Bytes), g)))
    rw [hinf]
    dsimp only
    exact stream_cons_cid_err env _ v rest rfl
  · intro env CID cids fs hvalid hperm hCIDne hCIDlen hok hcne hlt hfs
    have hCIDt : CID.take maxValueBytes = CID := List.take_of_length_le hCIDlen
    show uploadFileMultipartBufScan env _ (initState []) _ = _
    rw [bufscan_cons_ch env _ (initState []) CID _ (by rw [hCIDt]; exact hCIDne)]
    rw [hCIDt]
    rw [stream_cons_ch env (initState CID) CID _]
    rw [hCIDt, if_pos hCIDne]
    rw [show ({ initState CID with channelId := CID } : MpState) =
      initState CID from rfl]
    rw [stream_collect env cids (initState CID) _ rfl]
    rw [show ({ initState CID with clientIds :=
        (initState CID).clientIds ++ truncVals cids } : MpState) =
      ⟨CID, true, truncVals cids, 0, [], []⟩ from by simp [initState]]
    exact stream_files_overflow env (truncVals cids) hok fs 0 CID [] []
      hvalid hperm
      (by simpa [truncVals] using hcne)
      (Nat.zero_le _)
      (by simpa [truncVals] using hlt)
      hfs

/-- C2: witness.  Both conjuncts evaluated on concrete bodies in the concrete
environment: a late client_ids fails with the invalid-parameter 400 error,
and two files with one client id fail likewise. -/
theorem C2_client_ids_binding_amended_witness :
    uploadFileMultipart env0 []
      (chPart [3] :: ([("a.txt", ([10] : Bytes))].map filePart ++
        cidPart [7] :: [])) bufferedMode =
      .error (invalidUrlParam "client_ids") ∧
    uploadFileMultipart env0 []
      (chPart [3] :: ([[7]].map cidPart ++
        [("a.txt", ([10] : Bytes)), ("b.txt", [11])].map filePart))
      bufferedMode = .error (invalidUrlParam "client_ids") :=
  ⟨C2_client_ids_binding_amended.1 env0 [3] [7] [("a.txt", [10])] []
      rfl rfl (by decide) (by decide) (fun ctx => ⟨infoOfCtx ctx, rfl⟩)
      (by decide) (by decide),
   C2_client_ids_binding_amended.2 env0 [3] [[7]]
      [("a.txt", [10]), ("b.txt", [11])]
      rfl rfl (by decide) (by decide) (fun ctx => ⟨infoOfCtx ctx, rfl⟩)
      (by decide) (by decide) (by decide)⟩

/-- C3: witness for the amended equivalence at a concrete body: one file, one
client id, channel_id moved from first to last position. -/
theorem C3_order_equivalence_amended_witness :
    uploadFileMultipart env0 []
      (chPart [3] :: ([[7]].map cidPart ++
        [("c.txt", ([10] : Bytes))].map filePart)) bufferedMode =
      uploadFileMultipart env0 []
        ([[7]].map cidPart ++ [("c.txt", ([10] : Bytes))].map filePart ++
          [chPart [3]]) bufferedMode :=
  C3_order_equivalence_amended env0 [3] [[7]] [("c.txt", [10])]
    (by decide) (by decide) rfl rfl (by decide) (by decide) (by decide)
    (Or.inr rfl)

/-- The file step never consults the storage driver setting. -/
theorem fileStep_storage (env : Env) (s : String) (st : MpState)
    (fn : String) (c : Bytes) :
    fileStep { env with storageDriver := s } st fn c = fileStep env st fn c := rfl

/-- The streaming loop never consults the storage driver setting. -/
theorem stream_storage (env : Env) (s : String) :
    ∀ (parts : List MPart) (st : MpState),
    uploadFileMultipartStream { env with storageDriver := s } st parts =
      uploadFileMultipartStream env st parts := by
  intro parts
  induction parts with
  | nil => intro st; rfl
  | cons p rest ih =>
      intro st
      simp only [uploadFileMultipartStream, fileStep_storage]
      simp [ih]

/-- The buffered file loop never consults the storage driver setting. -/
theorem bufferedLoop_storage (env : Env) (s : String) (CID : Bytes)
    (cids : List Bytes) :
    ∀ (fhs : List MPart) (acc : FileUploadResponse) (i : Nat),
    bufferedLoop { env with storageDriver := s } CID cids acc i fhs =
      bufferedLoop env CID cids acc i fhs := by
  intro fhs
  induction fhs with
  | nil => intro acc i; rfl
  | cons fh t ih =>
      intro acc i
      simp only [bufferedLoop]
      simp [ih]

/-- The buffered parser never consults the storage driver setting. -/
theorem buffered_storage (env : Env) (s : String) (parts : List MPart) :
    uploadFileMultipartBuffered { env with storageDriver := s } parts =
      uploadFileMultipartBuffered env parts := by
  simp only [uploadFileMultipartBuffered, bufferedLoop_storage]

/-- The buffered-mode scan never consults the storage driver setting. -/
theorem bufscan_storage (env : Env) (s : String) (allParts : List MPart) :
    ∀ (parts : List MPart) (st : MpState),
    uploadFileMultipartBufScan { env with storageDriver := s } allParts st parts =
      uploadFileMultipartBufScan env allParts st parts := by
  intro parts
  induction parts with
  | nil => intro st; rfl
  | cons p rest ih =>
      intro st
      simp only [uploadFileMultipartBufScan, fileStep_storage,
        stream_storage, buffered_storage]
      simp [ih]

/-- The two-mode multipart entry never consults the storage driver setting. -/
theorem uploadFileMultipart_storage (env : Env) (s : String)
    (channelId0 : Bytes) (parts : List MPart) (mode : Bool) :
    uploadFileMultipart { env with storageDriver := s } channelId0 parts mode =
      uploadFileMultipart env channelId0 parts mode := by
  simp only [uploadFileMultipart, bufscan_storage, stream_storage]

/-- The newer facade never consults the storage driver setting. -/
theorem uploadFileStream_storage (env : Env) (s : String) (r : HRequest) :
    uploadFileStream { env with storageDriver := s } r =
      uploadFileStream env r := by
  simp only [uploadFileStream, uploadFileMultipart_storage]

end Api4v2

namespace Api4

/-- The older multipart loop never consults the storage driver setting. -/
theorem uploadFileMultipartLoop_storage (env : Env) (s : String) :
    ∀ (parts : List MPart) (st : MpStateOld),
    uploadFileMultipartLoop { env with storageDriver := s } st parts =
      uploadFileMultipartLoop env st parts := by
  intro parts
  induction parts with
  | nil => intro st; rfl
  | cons p rest ih =>
      intro st
      simp only [uploadFileMultipartLoop]
      simp [ih]

/-- The older facade never consults the storage driver setting. -/
theorem uploadFileStream_storage_old (env : Env) (s : String) (r : HRequest) :
    uploadFileStream { env with storageDriver := s } r =
      uploadFileStream env r := by
  simp only [uploadFileStream, uploadFileMultipart,
    uploadFileMultipartLoop_storage]

end Api4

/-- C6: amended claim.  Both revisions of the upload facade reject
immediately with NotImplemented when EnableFileAttachments is false — and
then nothing is read or stored, since the rejection is the same for every
request and collaborator — while the StorageDriver setting is never
consulted: the facade result is invariant under changing it. -/
theorem C6_attachments_gate_amended :
    (∀ (env : Env) (r : HRequest), env.enableFileAttachments = false →
      Api4.uploadFileStream env r = .error attachmentsDisabledError ∧
      Api4v2.uploadFileStream env r = .error attachmentsDisabledError) ∧
    (∀ (env : Env) (r : HRequest) (s : String),
      Api4.uploadFileStream { env with storageDriver := s } r =
        Api4.uploadFileStream env r ∧
      Api4v2.uploadFileStream { env with storageDriver := s } r =
        Api4v2.uploadFileStream env r) := by
  constructor
  · intro env r hdis
    constructor
    · simp [Api4.uploadFileStream, hdis]
    · simp [Api4v2.uploadFileStream, hdis]
  · intro env r s
    exact ⟨Api4.uploadFileStream_storage_old env s r,
      Api4v2.uploadFileStream_storage env s r⟩

/-- The witness environment with attachments disabled. -/
def envDisabled : Env := { env0 with enableFileAttachments := false }

/-- C6: witness.  With attachments disabled both facades answer the 501
error on a concrete request, and flipping the storage driver on the concrete
environment leaves a concrete result unchanged. -/
theorem C6_attachments_gate_amended_witness :
    (Api4.uploadFileStream envDisabled simpleRequest =
        .error attachmentsDisabledError ∧
      Api4v2.uploadFileStream envDisabled simpleRequest =
        .error attachmentsDisabledError) ∧
    (Api4.uploadFileStream { env0 with storageDriver := "s3" } simpleRequest =
        Api4.uploadFileStream env0 simpleRequest ∧
      Api4v2.uploadFileStream { env0 with storageDriver := "s3" } simpleRequest =
        Api4v2.uploadFileStream env0 simpleRequest) :=
  ⟨C6_attachments_gate_amended.1 envDisabled simpleRequest rfl,
   C6_attachments_gate_amended.2 env0 simpleRequest "s3"⟩

/-- C7: amended claim.  A non-file form value (channel_id or client_ids) is
read only up to its first 10 KiB: the multipart ingestor behaves identically
on a value and on its 10 KiB truncation, so excess bytes are discarded
without failing the request. -/
theorem C7_value_cap_amended (env : Env) (channelId0 : Bytes) (v : Bytes)
    (rest : List MPart) (fn : String)
    (hfn : fn = "channel_id" ∨ fn = "client_ids") :
    Api4.uploadFileMultipart env channelId0 (⟨fn, "", v⟩ :: rest) =
      Api4.uploadFileMultipart env channelId0
        (⟨fn, "", v.take maxValueBytes⟩ :: rest) := by
  have htake : (v.take maxValueBytes).take maxValueBytes = v.take maxValueBytes := by
    rw [List.take_take, min_self]
  rcases hfn with rfl | rfl <;>
  · show Api4.uploadFileMultipartLoop env _ _ = Api4.uploadFileMultipartLoop env _ _
    simp [Api4.uploadFileMultipartLoop, partValue, htake]

/-- C7: witness.  The amended truncation law applied to a client_ids value of
10241 bytes: processing is unchanged by dropping the byte beyond the cap. -/
theorem C7_value_cap_amended_witness :
    Api4.uploadFileMultipart env0 []
      (⟨"client_ids", "", List.replicate 10241 1⟩ :: [⟨"files", "a.txt", [10]⟩]) =
      Api4.uploadFileMultipart env0 []
        (⟨"client_ids", "", (List.replicate 10241 1).take maxValueBytes⟩ ::
          [⟨"files", "a.txt", [10]⟩]) :=
  C7_value_cap_amended env0 [] (List.replicate 10241 1)
    [⟨"files", "a.txt", [10]⟩] "client_ids" (Or.inr rfl)

namespace Api4v2

/-- The loop invariant tying the response client ids to the collected ones:
the response lists grow in lockstep while ids are expected, and both id lists
are empty once the expectation was cleared. -/
def stInv (st : MpState) : Prop :=
  st.fileInfos.length = st.nFiles ∧
  (st.expectClientIds = true →
    st.respClientIds = st.clientIds.take st.nFiles ∧
    st.nFiles ≤ st.clientIds.length) ∧
  (st.expectClientIds = false →
    st.respClientIds = [] ∧ st.clientIds = [])

/-- The invariant holds at the top of the loop. -/
theorem stInv_init (channelId : Bytes) : stInv (initState channelId) := by
  simp [stInv, initState]

/-- The invariant ignores the channel id. -/
theorem stInv_channel (st : MpState) (v : Bytes) :
    stInv { st with channelId := v } ↔ stInv st := by
  simp [stInv]

/-- Taking no more than the first list keeps the take inside it. -/
theorem take_app_le {α : Type} (l₁ l₂ : List α) (n : Nat) (h : n ≤ l₁.length) :
    (l₁ ++ l₂).take n = l₁.take n := by
  rw [List.take_append_eq_append_take, Nat.sub_eq_zero_of_le h]
  simp

/-- Boolean equality is false on provably different strings. -/
theorem beq_false_of_ne {s t : String} (h : s ≠ t) : (s == t) = false := by
  cases hb : s == t
  · rfl
  · exact absurd (eq_of_beq hb) h

/-- Collecting one more client id preserves the invariant. -/
theorem stInv_push (st : MpState) (v : Bytes) (hexp : st.expectClientIds = true)
    (hinv : stInv st) : stInv { st with clientIds := st.clientIds ++ [v] } := by
  obtain ⟨h1, h2, h3⟩ := hinv
  obtain ⟨hr, hn⟩ := h2 hexp
  refine ⟨h1, ?_, ?_⟩
  · intro _
    constructor
    · show st.respClientIds = (st.clientIds ++ [v]).take st.nFiles
      rw [take_app_le _ _ _ hn]
      exact hr
    · show st.nFiles ≤ (st.clientIds ++ [v]).length
      simp
      omega
  · intro hcontra
    simp [hexp] at hcontra

/-- A successful file step preserves the invariant and the collected ids. -/
theorem fileStep_inv (env : Env) (st : MpState) (fn : String) (c : Bytes)
    (st2 : MpState) (hinv : stInv st) (h : fileStep env st fn c = .ok st2) :
    stInv st2 ∧ st2.clientIds = st.clientIds := by
  obtain ⟨hlenfi, hexpT, hexpF⟩ := hinv
  cases hv : env.isValidId st.channelId with
  | false => simp [fileStep, hv] at h
  | true =>
  cases hp : env.hasUploadPerm st.channelId with
  | false => simp [fileStep, hv, hp] at h
  | true =>
  by_cases hflip : st.nFiles = 0 ∧ st.clientIds = []
  · obtain ⟨h0, hnil⟩ := hflip
    have hrc : st.respClientIds = [] := by
      cases hexp : st.expectClientIds
      · exact (hexpF hexp).1
      · rw [(hexpT hexp).1, h0]
        rfl
    simp [fileStep, hv, hp, h0, hnil] at h
    split at h
    · exact absurd h (by simp)
    · rename_i info heq
      simp only [Except.ok.injEq] at h
      subst h
      refine ⟨⟨?_, ?_, ?_⟩, ?_⟩
      · simp [hlenfi, h0]
      · intro hcontra
        simp at hcontra
      · intro _
        exact ⟨by simp [hrc], by simp⟩
      · simp [hnil]
  · cases hexp : st.expectClientIds with
    | false =>
        simp [fileStep, hv, hp, hexp, hflip] at h
        split at h
        · exact absurd h (by simp)
        · rename_i info heq
          simp only [Except.ok.injEq] at h
          subst h
          obtain ⟨hrc, hcl⟩ := hexpF hexp
          refine ⟨⟨?_, ?_, ?_⟩, ?_⟩
          · simp [hlenfi]
          · intro hcontra
            simp [hexp] at hcontra
          · intro _
            exact ⟨by simp [hrc], by simp [hcl]⟩
          · simp
    | true =>
        by_cases hlen : st.clientIds.length ≤ st.nFiles
        · simp [fileStep, hv, hp, hexp, hflip, hlen] at h
        · have hlt : st.nFiles < st.clientIds.length := Nat.lt_of_not_le hlen
          simp [fileStep, hv, hp, hexp, hflip, hlen] at h
          split at h
          · exact absurd h (by simp)
          · rename_i info heq
            simp only [Except.ok.injEq] at h
            subst h
            obtain ⟨hr, hn⟩ := hexpT hexp
            refine ⟨⟨?_, ?_, ?_⟩, ?_⟩
            · simp [hlenfi]
            · intro _
              constructor
              · show st.respClientIds ++ [(st.clientIds[st.nFiles]?).getD []] =
                  st.clientIds.take (st.nFiles + 1)
                rw [hr, List.take_succ, List.getElem?_eq_getElem hlt]
                rfl
              · show st.nFiles + 1 ≤ st.clientIds.length
                omega
            · intro hcontra
              simp [hexp] at hcontra
            · simp

/-- Parts that are not client-id form values do not contribute supplied ids. -/
theorem supplied_cons_skip (p : MPart) (rest : List MPart)
    (h : (p.formname == "client_ids" && p.filename == "") = false) :
    suppliedClientIds (p :: rest) = suppliedClientIds rest := by
  simp [suppliedClientIds, List.filter_cons, h]

/-- A client-id form value contributes its capped value. -/
theorem supplied_cons_cid (p : MPart) (rest : List MPart)
    (h : (p.formname == "client_ids" && p.filename == "") = true) :
    suppliedClientIds (p :: rest) = partValue p :: suppliedClientIds rest := by
  simp [suppliedClientIds, List.filter_cons, h]

/-- Stream-mode runs from an invariant state either return no client ids, or
return one id per uploaded file: the ids collected so far followed by the
ones supplied in the remaining parts. -/
theorem stream_resp (env : Env) :
    ∀ (parts : List MPart) (st : MpState) (resp : FileUploadResponse),
    stInv st →
    uploadFileMultipartStream env st parts = .ok resp →
    resp.clientIds = [] ∨
      (resp.clientIds.length = resp.fileInfos.length ∧
        resp.clientIds = st.clientIds ++ suppliedClientIds parts) := by
  intro parts
  induction parts with
  | nil =>
      intro st resp hinv hok
      obtain ⟨hlenfi, hexpT, hexpF⟩ := hinv
      simp only [uploadFileMultipartStream] at hok
      unfold finishLoop at hok
      split at hok
      · exact absurd hok (by simp)
      · rename_i hcond
        simp only [Except.ok.injEq] at hok
        subst hok
        cases hexp : st.expectClientIds with
        | false =>
            left
            exact (hexpF hexp).1
        | true =>
            right
            have hne : st.clientIds.length = st.nFiles := by
              by_contra hne
              exact hcond ⟨hexp, hne⟩
            obtain ⟨hresp, _⟩ := hexpT hexp
            constructor
            · show st.respClientIds.length = st.fileInfos.length
              rw [hresp, List.length_take, hlenfi]
              omega
            · show st.respClientIds = st.clientIds ++ suppliedClientIds []
              rw [hresp, ← hne, List.take_length]
              simp [suppliedClientIds]
  | cons p rest ih =>
      intro st resp hinv hok
      by_cases hform : p.formname = ""
      · have hstep : uploadFileMultipartStream env st (p :: rest) =
            uploadFileMultipartStream env st rest := by
          simp [uploadFileMultipartStream, hform]
        rw [hstep] at hok
        have hpred : (p.formname == "client_ids" && p.filename == "") = false := by
          rw [hform]
          rfl
        rw [supplied_cons_skip p rest hpred]
        exact ih st resp hinv hok
      · by_cases hfile : p.filename = ""
        · by_cases hch : p.formname = "channel_id"
          · have hpred : (p.formname == "client_ids" && p.filename == "") = false := by
              rw [hch]
              rfl
            rw [supplied_cons_skip p rest hpred]
            by_cases hv : partValue p ≠ []
            · have hstep : uploadFileMultipartStream env st (p :: rest) =
                  uploadFileMultipartStream env
                    { st with channelId := partValue p } rest := by
                simp [uploadFileMultipartStream, hform, hfile, hch, hv]
              rw [hstep] at hok
              have hres := ih { st with channelId := partValue p } resp
                ((stInv_channel st (partValue p)).mpr hinv) hok
              rcases hres with h1 | ⟨h2, h3⟩
              · exact Or.inl h1
              · exact Or.inr ⟨h2, h3⟩
            · have hstep : uploadFileMultipartStream env st (p :: rest) =
                  uploadFileMultipartStream env st rest := by
                simp [uploadFileMultipartStream, hform, hfile, hch, hv]
              rw [hstep] at hok
              exact ih st resp hinv hok
          · by_cases hcid : p.formname = "client_ids"
            · cases hexpv : st.expectClientIds with
              | false =>
                  have hstep : uploadFileMultipartStream env st (p :: rest) =
                      .error (invalidUrlParam "client_ids") := by
                    simp [uploadFileMultipartStream, hform, hfile, hch, hcid, hexpv]
                  rw [hstep] at hok
                  exact absurd hok (by simp)
              | true =>
                  have hstep : uploadFileMultipartStream env st (p :: rest) =
                      uploadFileMultipartStream env
                        { st with clientIds := st.clientIds ++ [partValue p] }
                        rest := by
                    simp [uploadFileMultipartStream, hform, hfile, hch, hcid, hexpv]
                  rw [hstep] at hok
                  have hres := ih _ resp (stInv_push st (partValue p) hexpv hinv) hok
                  have hpred : (p.formname == "client_ids" && p.filename == "") = true := by
                    rw [hcid, hfile]
                    rfl
                  rw [supplied_cons_cid p rest hpred]
                  rcases hres with h1 | ⟨h2, h3⟩
                  · exact Or.inl h1
                  · right
                    refine ⟨h2, ?_⟩
                    rw [h3]
                    simp [List.append_assoc]
            · have hstep : uploadFileMultipartStream env st (p :: rest) =
                  .error (invalidUrlParam "formname") := by
                simp [uploadFileMultipartStream, hform, hfile, hch, hcid]
              rw [hstep] at hok
              exact absurd hok (by simp)
        · have hstep : uploadFileMultipartStream env st (p :: rest) =
              match fileStep env st p.filename p.content with
              | .error e => .error e
              | .ok st2 => uploadFileMultipartStream env st2 rest := by
            simp [uploadFileMultipartStream, hform, hfile]
          rw [hstep] at hok
          split at hok
          · exact absurd hok (by simp)
          · rename_i st2 heq
            obtain ⟨hinv2, hcl2⟩ := fileStep_inv env st p.filename p.content st2 hinv heq
            have hres := ih st2 resp hinv2 hok
            have hpred : (p.formname == "client_ids" && p.filename == "") = false := by
              rw [beq_false_of_ne hfile]
              simp
            rw [supplied_cons_skip p rest hpred]
            rcases hres with h1 | ⟨h2, h3⟩
            · exact Or.inl h1
            · right
              refine ⟨h2, ?_⟩
              rw [h3, hcl2]

/-- A successful upload run yields one file info per input. -/
theorem runUploads_length (env : Env) (CID : Bytes) :
    ∀ (ps : List (Bytes × (String × Bytes))) (infos : List FileInfo),
    runUploads env CID ps = .ok infos → infos.length = ps.length := by
  intro ps
  induction ps with
  | nil =>
      intro infos h
      simp only [runUploads, Except.ok.injEq] at h
      subst h
      rfl
  | cons q t ih =>
      intro infos h
      rcases q with ⟨cid, f⟩
      simp only [runUploads] at h
      split at h
      · exact absurd h (by simp)
      · rename_i info heq
        split at h
        · exact absurd h (by simp)
        · rename_i infos2 heq2
          simp only [Except.ok.injEq] at h
          subst h
          simp [ih _ heq2]

/-- Every collected form value comes from a matching form-value part. -/
theorem formValues_mem (parts : List MPart) (name : String) (v : Bytes)
    (hv : v ∈ formValues parts name) :
    ∃ p ∈ parts, p.formname = name ∧ p.filename = "" ∧ p.content = v := by
  unfold formValues at hv
  obtain ⟨p, hpmem, hpc⟩ := List.mem_map.mp hv
  have hpf := List.mem_filter.mp hpmem
  have hpf2 := hpf.2
  rw [Bool.and_eq_true] at hpf2
  exact ⟨p, hpf.1, eq_of_beq hpf2.1, eq_of_beq hpf2.2, hpc⟩

/-- The whole-form path either returns no client ids (none supplied), or
returns exactly the supplied form values, one per uploaded file. -/
theorem buffered_resp (env : Env) (parts : List MPart)
    (resp : FileUploadResponse)
    (hnon : ∀ v ∈ formValues parts "client_ids", v ≠ [])
    (hok : uploadFileMultipartBuffered env parts = .ok resp) :
    resp.clientIds = [] ∨
      (resp.clientIds.length = resp.fileInfos.length ∧
        resp.clientIds = formValues parts "client_ids") := by
  simp only [uploadFileMultipartBuffered] at hok
  split at hok
  · exact absurd hok (by simp)
  split at hok
  · exact absurd hok (by simp)
  split at hok
  · exact absurd hok (by simp)
  split at hok
  · exact absurd hok (by simp)
  rename_i h1 h2 h3 h4
  by_cases hc : formValues parts "client_ids" = []
  · rw [hc] at hok
    rw [bufferedLoop_none] at hok
    split at hok
    · exact absurd hok (by simp)
    · rename_i infos heq
      simp only [Except.ok.injEq] at hok
      subst hok
      left
      rfl
  · have hlen : (formValues parts "client_ids").length =
        (formFiles parts).length := by
      by_contra hne
      exact h4 ⟨fun h0 => hc (List.length_eq_zero.mp h0), hne⟩
    rw [bufferedLoop_some env ((formValues parts "channel_id").getD 0 [])
      (formValues parts "client_ids") hnon (formFiles parts) 0 [] []
      (by simpa using hlen.symm)] at hok
    split at hok
    · exact absurd hok (by simp)
    · rename_i infos heq
      simp only [Except.ok.injEq] at hok
      subst hok
      right
      have hl := runUploads_length env _ _ _ heq
      have hzl : (List.zipWith Prod.mk (List.drop 0 (formValues parts "client_ids"))
          (List.map (fun p => (p.filename, p.content)) (formFiles parts))).length =
          (formValues parts "client_ids").length := by
        simp [List.length_zipWith, hlen]
      constructor
      · show ((List.nil : List Bytes) ++
            (formValues parts "client_ids").drop 0).length =
          ((List.nil : List FileInfo) ++ infos).length
        simp only [List.nil_append, List.drop_zero]
        rw [hl, hzl]
      · show (List.nil : List Bytes) ++
            (formValues parts "client_ids").drop 0 =
          formValues parts "client_ids"
        simp

/-- When every client-id value fits in the 10 KiB cap, the streaming reader
and `ReadForm` collect the same values. -/
theorem supplied_eq_formValues (parts : List MPart)
    (hshort : ∀ p ∈ parts, p.formname = "client_ids" → p.filename = "" →
      p.content.length ≤ maxValueBytes) :
    suppliedClientIds parts = formValues parts "client_ids" := by
  induction parts with
  | nil => rfl
  | cons p rest ih =>
      have hrest := fun q hq => hshort q (List.mem_cons_of_mem p hq)
      cases hpred : (p.formname == "client_ids" && p.filename == "") with
      | false =>
          have h1 : suppliedClientIds (p :: rest) = suppliedClientIds rest := by
            simp [suppliedClientIds, List.filter_cons, hpred]
          have h2 : formValues (p :: rest) "client_ids" =
              formValues rest "client_ids" := by
            simp [formValues, List.filter_cons, hpred]
          rw [h1, h2]
          exact ih hrest
      | true =>
          have hab := hpred
          rw [Bool.and_eq_true] at hab
          have hfn : p.formname = "client_ids" := eq_of_beq hab.1
          have hfl : p.filename = "" := eq_of_beq hab.2
          have h1 : suppliedClientIds (p :: rest) =
              partValue p :: suppliedClientIds rest := by
            simp [suppliedClientIds, List.filter_cons, hpred]
          have h2 : formValues (p :: rest) "client_ids" =
              p.content :: formValues rest "client_ids" := by
            simp [formValues, List.filter_cons, hpred]
          rw [h1, h2, ih hrest]
          congr 1
          exact List.take_of_length_le (hshort p (List.mem_cons_self p rest) hfn hfl)

/-- Buffered-mode pre-scan runs from an invariant state either return no
client ids or one id per file, the ids being either the streaming-reader
values or (on the whole-form path) the `ReadForm` values of the message. -/
theorem bufscan_resp (env : Env) (allParts : List MPart)
    (hnon : ∀ v ∈ formValues allParts "client_ids", v ≠ []) :
    ∀ (parts : List MPart) (st : MpState) (resp : FileUploadResponse),
    stInv st →
    st.clientIds ++ suppliedClientIds parts = suppliedClientIds allParts →
    uploadFileMultipartBufScan env allParts st parts = .ok resp →
    resp.clientIds = [] ∨
      (resp.clientIds.length = resp.fileInfos.length ∧
        (resp.clientIds = suppliedClientIds allParts ∨
         resp.clientIds = formValues allParts "client_ids")) := by
  intro parts
  induction parts with
  | nil =>
      intro st resp hinv hpre hok
      obtain ⟨hlenfi, hexpT, hexpF⟩ := hinv
      simp only [uploadFileMultipartBufScan] at hok
      unfold finishLoop at hok
      split at hok
      · exact absurd hok (by simp)
      · rename_i hcond
        simp only [Except.ok.injEq] at hok
        subst hok
        cases hexp : st.expectClientIds with
        | false =>
            left
            exact (hexpF hexp).1
        | true =>
            right
            have hne : st.clientIds.length = st.nFiles := by
              by_contra hne
              exact hcond ⟨hexp, hne⟩
            obtain ⟨hresp, _⟩ := hexpT hexp
            constructor
            · show st.respClientIds.length = st.fileInfos.length
              rw [hresp, List.length_take, hlenfi]
              omega
            · left
              show st.respClientIds = suppliedClientIds allParts
              rw [hresp, ← hne, List.take_length, ← hpre]
              simp [suppliedClientIds]
  | cons p rest ih =>
      intro st resp hinv hpre hok
      by_cases hform : p.formname = ""
      · have hstep : uploadFileMultipartBufScan env allParts st (p :: rest) =
            uploadFileMultipartBufScan env allParts st rest := by
          simp [uploadFileMultipartBufScan, hform]
        rw [hstep] at hok
        have hpred : (p.formname == "client_ids" && p.filename == "") = false := by
          rw [hform]
          rfl
        rw [supplied_cons_skip p rest hpred] at hpre
        exact ih st resp hinv hpre hok
      · by_cases hfile : p.filename = ""
        · by_cases hch : p.formname = "channel_id"
          · have hstep : uploadFileMultipartBufScan env allParts st (p :: rest) =
                uploadFileMultipartStream env
                  (initState (if partValue p ≠ [] then
                    { st with channelId := partValue p } else st).channelId)
                  allParts := by
              simp [uploadFileMultipartBufScan, hform, hfile, hch]
            rw [hstep] at hok
            have hres := stream_resp env allParts _ resp (stInv_init _) hok
            rcases hres with hr1 | ⟨hr2, hr3⟩
            · exact Or.inl hr1
            · right
              refine ⟨hr2, Or.inl ?_⟩
              rw [hr3]
              rfl
          · by_cases hcid : p.formname = "client_ids"
            · cases hexpv : st.expectClientIds with
              | false =>
                  have hstep : uploadFileMultipartBufScan env allParts st (p :: rest) =
                      .error (invalidUrlParam "client_ids") := by
                    simp [uploadFileMultipartBufScan, hform, hfile, hch, hcid, hexpv]
                  rw [hstep] at hok
                  exact absurd hok (by simp)
              | true =>
                  have hstep : uploadFileMultipartBufScan env allParts st (p :: rest) =
                      uploadFileMultipartBufScan env allParts
                        { st with clientIds := st.clientIds ++ [partValue p] }
                        rest := by
                    simp [uploadFileMultipartBufScan, hform, hfile, hch, hcid, hexpv]
                  rw [hstep] at hok
                  have hpred : (p.formname == "client_ids" && p.filename == "") = true := by
                    rw [hcid, hfile]
                    rfl
                  rw [supplied_cons_cid p rest hpred] at hpre
                  have hpre2 : (st.clientIds ++ [partValue p]) ++
                      suppliedClientIds rest = suppliedClientIds allParts := by
                    rw [List.append_assoc]
                    exact hpre
                  exact ih _ resp (stInv_push st (partValue p) hexpv hinv) hpre2 hok
            · have hstep : uploadFileMultipartBufScan env allParts st (p :: rest) =
                  .error (invalidUrlParam "formname") := by
                simp [uploadFileMultipartBufScan, hform, hfile, hch, hcid]
              rw [hstep] at hok
              exact absurd hok (by simp)
        · by_cases hchnil : st.channelId = []
          · have hstep : uploadFileMultipartBufScan env allParts st (p :: rest) =
                uploadFileMultipartBuffered env allParts := by
              simp [uploadFileMultipartBufScan, hform, hfile, hchnil]
            rw [hstep] at hok
            have hres := buffered_resp env allParts resp hnon hok
            rcases hres with hr1 | ⟨hr2, hr3⟩
            · exact Or.inl hr1
            · exact Or.inr ⟨hr2, Or.inr hr3⟩
          · have hstep : uploadFileMultipartBufScan env allParts st (p :: rest) =
                match fileStep env st p.filename p.content with
                | .error e => .error e
                | .ok st2 => uploadFileMultipartBufScan env allParts st2 rest := by
              simp [uploadFileMultipartBufScan, hform, hfile, hchnil]
            rw [hstep] at hok
            split at hok
            · exact absurd hok (by simp)
            · rename_i st2 heq
              obtain ⟨hinv2, hcl2⟩ :=
                fileStep_inv env st p.filename p.content st2 hinv heq
              have hpred : (p.formname == "client_ids" && p.filename == "") = false := by
                rw [beq_false_of_ne hfile]
                simp
              rw [supplied_cons_skip p rest hpred] at hpre
              rw [← hcl2] at hpre
              exact ih st2 resp hinv2 hpre hok

/-- Multipart body for the invariant witness: one client_ids value, then one
file part. -/
def c1parts : List MPart :=
  [⟨"client_ids", "", [7]⟩, ⟨"files", "a.txt", [9]⟩]

/-- C1: amended invariant.  For every multipart upload request that completes
successfully — in either mode — whose supplied client_ids values are
non-empty and within the 10 KiB value cap, the returned response satisfies:
ClientIds is either empty, or it has exactly the length of FileInfos and
lists the supplied client ids in file order, so ClientIds[i] is the id
supplied for the file that produced FileInfos[i].  (Without the two extra
hypotheses the invariant fails, see the counterexample: the whole-form path
drops empty client ids one by one.) -/
theorem C1_clientIds_invariant_amended (env : Env) (channelId0 : Bytes)
    (parts : List MPart) (mode : Bool) (resp : FileUploadResponse)
    (hnonempty : ∀ p ∈ parts, p.formname = "client_ids" → p.filename = "" →
      p.content ≠ [])
    (hshort : ∀ p ∈ parts, p.formname = "client_ids" → p.filename = "" →
      p.content.length ≤ maxValueBytes)
    (hok : uploadFileMultipart env channelId0 parts mode = .ok resp) :
    resp.clientIds = [] ∨
      (resp.clientIds.length = resp.fileInfos.length ∧
        resp.clientIds = suppliedClientIds parts) := by
  have hnonF : ∀ v ∈ formValues parts "client_ids", v ≠ [] := by
    intro v hv
    obtain ⟨p, hpmem, hfn, hfl, hco⟩ := formValues_mem parts _ v hv
    rw [← hco]
    exact hnonempty p hpmem hfn hfl
  unfold uploadFileMultipart at hok
  split at hok
  · have hres := bufscan_resp env parts hnonF parts (initState channelId0) resp
      (stInv_init channelId0) (by simp [initState]) hok
    rcases hres with h1 | ⟨h2, h3 | h3⟩
    · exact Or.inl h1
    · exact Or.inr ⟨h2, h3⟩
    · right
      refine ⟨h2, ?_⟩
      rw [h3, ← supplied_eq_formValues parts hshort]
  · have hres := stream_resp env parts (initState channelId0) resp
      (stInv_init channelId0) hok
    rcases hres with h1 | ⟨h2, h3⟩
    · exact Or.inl h1
    · right
      refine ⟨h2, ?_⟩
      rw [h3]
      rfl

/-- C1 witness: a concrete two-part body satisfying the hypotheses on which
the amended invariant holds with ClientIds = [[7]]. -/
theorem C1_clientIds_invariant_amended_witness :
    (∀ p ∈ c1parts, p.formname = "client_ids" → p.filename = "" →
      p.content ≠ []) ∧
    (∀ p ∈ c1parts, p.formname = "client_ids" → p.filename = "" →
      p.content.length ≤ maxValueBytes) ∧
    (uploadFileMultipart env0 [3] c1parts bufferedMode =
      .ok { fileInfos := [⟨"", "a.txt", "", 0, ""⟩], clientIds := [[7]] }) ∧
    (({ fileInfos := [⟨"", "a.txt", "", 0, ""⟩], clientIds := [[7]] } :
        FileUploadResponse).clientIds = [] ∨
      (({ fileInfos := [⟨"", "a.txt", "", 0, ""⟩], clientIds := [[7]] } :
          FileUploadResponse).clientIds.length =
        ({ fileInfos := [⟨"", "a.txt", "", 0, ""⟩], clientIds := [[7]] } :
          FileUploadResponse).fileInfos.length ∧
        ({ fileInfos := [⟨"", "a.txt", "", 0, ""⟩], clientIds := [[7]] } :
          FileUploadResponse).clientIds = suppliedClientIds c1parts)) :=
  ⟨by decide, by decide, rfl,
    C1_clientIds_invariant_amended env0 [3] c1parts bufferedMode _
      (by decide) (by decide) rfl⟩

end Api4v2
